import Mathlib

/-!
# MOC kernels (`src/MOCKernel.cpp`)

A shallow embedding of the three per-segment kernels of the ray tracer
(`VolumeKernel`, `CounterKernel`, `SegmentationKernel`) and of the state they act on.

Conventions of the embedding.

* The kernels are embedded twice. The first embedding (`numCuts`, `execute`, `written`)
  computes exactly: `FP_PRECISION` and `double` values are rationals (`ℚ`), `std::ceil`
  followed by the cast to `int` is the integer ceiling, and `int` values are unbounded
  integers (`Int`). A statement about these definitions is a statement in exact arithmetic.
* The second embedding (`numCutsOn`, `executeOn`, `writtenOn`) follows the same lines with
  the rounding of every floating-point result and the conversion to `int` made explicit as
  the fields of a `Machine`. A statement for every `Machine` holds whatever the rounding is;
  `doubleMachine` is the arithmetic of IEEE doubles with a 32-bit `int`, and
  `exactMachine` gives back the first embedding.
* An array reached through a raw pointer is a total map from the index to the stored value.
  The array of segment records also keeps the list of the indices stored to, oldest first, so
  that statements about which slots a call touches can be made.
* Acquiring and releasing an OpenMP lock has no effect on the sequential state and is left out;
  the lock array matters at construction only (`VolumeKernel.VolumeKernel`).
* A call that ends in a fatal error returns `Except.error`.
* `_count` is an unbounded integer in both embeddings.
-/

namespace OpenMOC

/-! ## Collaborators read by the kernels -/

/-- Material, as far as the kernels read it: `getSigmaT()` is the array of total
cross-sections, one entry per energy group, and `getNumEnergyGroups()` is its length. -/
structure Material where
  sigma_t : List ℚ
deriving DecidableEq

/-- Number of energy groups of a material. -/
def Material.getNumEnergyGroups (mat : Material) : Nat := mat.sigma_t.length

/-- Track handed to `newTrack`: a plain `Track` carries an azimuthal index, a `Track3D`
(the successful `dynamic_cast`) carries a polar index as well. -/
inductive Track where
  | Track2D (azim_index : Int)
  | Track3D (azim_index : Int) (polar_index : Int)
deriving DecidableEq

/-- Azimuthal index of a track (`getAzimIndex`). -/
def Track.getAzimIndex : Track → Int
  | Track.Track2D a => a
  | Track.Track3D a _ => a

/-- Quadrature lookups used by `VolumeKernel::newTrack`. -/
structure Quadrature where
  getAzimSpacing : Int → ℚ
  getAzimWeight : Int → ℚ
  getPolarSpacing : Int → Int → ℚ
  getPolarWeight : Int → Int → ℚ

/-- Segment record: the five fields the kernels read and write. The same shape carries the
arguments of one `execute` call. -/
structure segment where
  _length : ℚ
  _material : Material
  _region_id : Int
  _cmfd_surface_fwd : Int
  _cmfd_surface_bwd : Int
deriving DecidableEq

/-! ## The cut computation (lines 158-164, 186-192 and 218-224, three identical copies) -/

/-- One pass of the loop body `if (sigma_t[e] > max_sigma_t) max_sigma_t = sigma_t[e]`. -/
def maxStep (max_sigma_t : ℚ) (s : ℚ) : ℚ :=
  if s > max_sigma_t then s else max_sigma_t

/-- The loop over the energy groups, started from `max_sigma_t = 0`. -/
def maxSigmaT (mat : Material) : ℚ :=
  mat.sigma_t.foldl maxStep 0

/-- `std::max((int) std::ceil(length * max_sigma_t / _max_tau), 1)`, computed exactly and
with an unbounded `int`; `numCutsOn` is the same line with the roundings and the conversion
to `int`. -/
def numCuts (length : ℚ) (mat : Material) (max_tau : ℚ) : Int :=
  max ⌈length * maxSigmaT mat / max_tau⌉ 1

/-! ## CounterKernel -/

/-- State of a `CounterKernel`: the two fields of the base class. -/
structure CounterKernel where
  _count : Int
  _max_tau : ℚ
deriving DecidableEq

/-- `MOCKernel::newTrack`, inherited by the counter kernel: the count is reset. -/
def CounterKernel.newTrack (k : CounterKernel) (_track : Track) : CounterKernel :=
  { k with _count := 0 }

/-- `MOCKernel::getCount`. -/
def CounterKernel.getCount (k : CounterKernel) : Int := k._count

/-- `MOCKernel::setMaxOpticalLength`. -/
def CounterKernel.setMaxOpticalLength (k : CounterKernel) (max_tau : ℚ) : CounterKernel :=
  { k with _max_tau := max_tau }

/-- `CounterKernel::execute`. -/
def CounterKernel.execute (k : CounterKernel) (length : ℚ) (mat : Material) (_id : Int)
    (_cmfd_surface_fwd _cmfd_surface_bwd : Int) : CounterKernel :=
  let num_cuts := numCuts length mat k._max_tau
  { k with _count := k._count + num_cuts }

/-- One `execute` call per segment of a sequence, in order. -/
def CounterKernel.run (k : CounterKernel) (segs : List segment) : CounterKernel :=
  segs.foldl (fun k s => k.execute s._length s._material s._region_id
    s._cmfd_surface_fwd s._cmfd_surface_bwd) k

/-! ## SegmentationKernel -/

/-- Storage behind the `segment*` of a segmentation kernel: the record held at every index,
and the indices stored to so far, oldest first. -/
structure SegmentArray where
  cell : Int → segment
  stores : List Int

/-- Assignment of all five fields of `_segments[i]`. -/
def SegmentArray.store (a : SegmentArray) (i : Int) (r : segment) : SegmentArray :=
  { cell := Function.update a.cell i r, stores := a.stores ++ [i] }

/-- State of a `SegmentationKernel`; `_segments = none` is the `NULL` pointer. -/
structure SegmentationKernel where
  _count : Int
  _max_tau : ℚ
  _segments : Option SegmentArray

/-- `MOCKernel::newTrack`, inherited by the segmentation kernel. -/
def SegmentationKernel.newTrack (k : SegmentationKernel) (_track : Track) :
    SegmentationKernel :=
  { k with _count := 0 }

/-- `MOCKernel::getCount`. -/
def SegmentationKernel.getCount (k : SegmentationKernel) : Int := k._count

/-- `MOCKernel::setMaxOpticalLength`. -/
def SegmentationKernel.setMaxOpticalLength (k : SegmentationKernel) (max_tau : ℚ) :
    SegmentationKernel :=
  { k with _max_tau := max_tau }

/-- What the loop of lines 227-239 changes: the local `length`, `_count` and the array. -/
structure CutLoopState where
  length : ℚ
  _count : Int
  _segments : SegmentArray

/-- Body of the loop of lines 227-239 at loop index `i`, computed exactly; `cutBodyOn` is the
same body with the roundings. -/
def cutBody (max_tau max_sigma_t : ℚ) (mat : Material) (id cmfd_surface_bwd : Int)
    (st : CutLoopState) (i : Nat) : CutLoopState :=
  let temp_length := max_tau / max_sigma_t
  { length := st.length - temp_length
    _count := st._count + 1
    _segments := st._segments.store st._count
      { _length := temp_length
        _material := mat
        _region_id := id
        _cmfd_surface_fwd := -1
        _cmfd_surface_bwd := if i = 0 then cmfd_surface_bwd else -1 } }

/-- The loop `for (int i=0; i < num_cuts-1; i++)`, run for `iters` passes. -/
def cutLoop (max_tau max_sigma_t : ℚ) (mat : Material) (id cmfd_surface_bwd : Int)
    (iters : Nat) (st : CutLoopState) : CutLoopState :=
  (List.range iters).foldl (cutBody max_tau max_sigma_t mat id cmfd_surface_bwd) st

/-- `SegmentationKernel::execute`. -/
def SegmentationKernel.execute (k : SegmentationKernel) (length : ℚ) (mat : Material)
    (id : Int) (cmfd_surface_fwd cmfd_surface_bwd : Int) : SegmentationKernel :=
  match k._segments with
  | none => k
  | some segments =>
    let max_sigma_t := maxSigmaT mat
    let num_cuts := numCuts length mat k._max_tau
    let st := cutLoop k._max_tau max_sigma_t mat id cmfd_surface_bwd (num_cuts - 1).toNat
      { length := length, _count := k._count, _segments := segments }
    { k with
      _count := st._count + 1
      _segments := some (st._segments.store st._count
        { _length := st.length
          _material := mat
          _region_id := id
          _cmfd_surface_fwd := cmfd_surface_fwd
          _cmfd_surface_bwd := if num_cuts > 1 then -1 else cmfd_surface_bwd }) }

/-- One `execute` call per segment of a sequence, in order. -/
def SegmentationKernel.run (k : SegmentationKernel) (segs : List segment) :
    SegmentationKernel :=
  segs.foldl (fun k s => k.execute s._length s._material s._region_id
    s._cmfd_surface_fwd s._cmfd_surface_bwd) k

/-! ## VolumeKernel -/

/-- State of a `VolumeKernel`: the base-class fields, the FSR volume array it points to, the
quadrature and the weight of the current track. -/
structure VolumeKernel where
  _count : Int
  _max_tau : ℚ
  _FSR_volumes : Int → ℚ
  _quadrature : Quadrature
  _weight : ℚ

/-- `VolumeKernel::newTrack`. -/
def VolumeKernel.newTrack (k : VolumeKernel) (track : Track) : VolumeKernel :=
  let azim_index := track.getAzimIndex
  let weight := k._quadrature.getAzimSpacing azim_index
    * k._quadrature.getAzimWeight azim_index
  let weight :=
    match track with
    | Track.Track3D _ polar_index =>
      weight * (k._quadrature.getPolarSpacing azim_index polar_index
        * k._quadrature.getPolarWeight azim_index polar_index)
    | Track.Track2D _ => weight
  { k with _weight := weight, _count := 0 }

/-- `MOCKernel::getCount`. -/
def VolumeKernel.getCount (k : VolumeKernel) : Int := k._count

/-- `MOCKernel::setMaxOpticalLength`. -/
def VolumeKernel.setMaxOpticalLength (k : VolumeKernel) (max_tau : ℚ) : VolumeKernel :=
  { k with _max_tau := max_tau }

/-- `VolumeKernel::execute`. -/
def VolumeKernel.execute (k : VolumeKernel) (length : ℚ) (mat : Material) (id : Int)
    (_cmfd_surface_fwd _cmfd_surface_bwd : Int) : VolumeKernel :=
  let volumes := Function.update k._FSR_volumes id (k._FSR_volumes id + k._weight * length)
  let num_cuts := numCuts length mat k._max_tau
  { k with _FSR_volumes := volumes, _count := k._count + num_cuts }

/-! ## The kernel interface -/

/-- A kernel behind the `MOCKernel` interface: one of the three variants. -/
inductive MOCKernel where
  | volume (k : VolumeKernel)
  | counter (k : CounterKernel)
  | segmentation (k : SegmentationKernel)

/-- Virtual call of `execute`. -/
def MOCKernel.execute (k : MOCKernel) (length : ℚ) (mat : Material) (id : Int)
    (cmfd_surface_fwd cmfd_surface_bwd : Int) : MOCKernel :=
  match k with
  | MOCKernel.volume v =>
    MOCKernel.volume (v.execute length mat id cmfd_surface_fwd cmfd_surface_bwd)
  | MOCKernel.counter c =>
    MOCKernel.counter (c.execute length mat id cmfd_surface_fwd cmfd_surface_bwd)
  | MOCKernel.segmentation s =>
    MOCKernel.segmentation (s.execute length mat id cmfd_surface_fwd cmfd_surface_bwd)

/-- Virtual call of `newTrack`. -/
def MOCKernel.newTrack (k : MOCKernel) (track : Track) : MOCKernel :=
  match k with
  | MOCKernel.volume v => MOCKernel.volume (v.newTrack track)
  | MOCKernel.counter c => MOCKernel.counter (c.newTrack track)
  | MOCKernel.segmentation s => MOCKernel.segmentation (s.newTrack track)

/-- `MOCKernel::getCount`. -/
def MOCKernel.getCount : MOCKernel → Int
  | MOCKernel.volume v => v._count
  | MOCKernel.counter c => c._count
  | MOCKernel.segmentation s => s._count

/-- The field `_max_tau` of the base class. -/
def MOCKernel.max_tau : MOCKernel → ℚ
  | MOCKernel.volume v => v._max_tau
  | MOCKernel.counter c => c._max_tau
  | MOCKernel.segmentation s => s._max_tau

/-- Whether `execute` gets past the `_segments == NULL` test of line 214; the other two
variants have no such test. -/
def MOCKernel.hasBuffer : MOCKernel → Bool
  | MOCKernel.segmentation s => s._segments.isSome
  | _ => true

/-! ## Vocabulary of the statements -/

/-- Records held at the indices `first, first + 1, ..., first + n - 1` of an array. -/
def SegmentArray.slice (a : SegmentArray) (first : Int) (n : Nat) : List segment :=
  (List.range n).map (fun (j : Nat) => a.cell (first + (j : Int)))

/-- Number of records of a list whose backward-surface id is `v`. -/
def countBwd (v : Int) (recs : List segment) : Nat :=
  (recs.filter (fun r => decide (r._cmfd_surface_bwd = v))).length

/-- Number of records of a list whose forward-surface id is `v`. -/
def countFwd (v : Int) (recs : List segment) : Nat :=
  (recs.filter (fun r => decide (r._cmfd_surface_fwd = v))).length

/-- The record stored by pass `i` of the loop of lines 227-239. -/
def cutRecord (max_tau max_sigma_t : ℚ) (mat : Material) (id cmfd_surface_bwd : Int)
    (i : Nat) : segment :=
  { _length := max_tau / max_sigma_t
    _material := mat
    _region_id := id
    _cmfd_surface_fwd := -1
    _cmfd_surface_bwd := if i = 0 then cmfd_surface_bwd else -1 }

/-- The record stored by lines 240-247 after `iters` passes of the loop. -/
def lastRecord (max_tau max_sigma_t : ℚ) (length : ℚ) (mat : Material)
    (id cmfd_surface_fwd cmfd_surface_bwd : Int) (iters : Nat) : segment :=
  { _length := length - (iters : ℚ) * (max_tau / max_sigma_t)
    _material := mat
    _region_id := id
    _cmfd_surface_fwd := cmfd_surface_fwd
    _cmfd_surface_bwd := if iters = 0 then cmfd_surface_bwd else -1 }

/-- The records one `execute` call leaves at the indices
`_count, ..., _count + num_cuts - 1`, with `_count` the count before the call. -/
def SegmentationKernel.written (k : SegmentationKernel) (length : ℚ) (mat : Material)
    (id : Int) (cmfd_surface_fwd cmfd_surface_bwd : Int) : List segment :=
  match (k.execute length mat id cmfd_surface_fwd cmfd_surface_bwd)._segments with
  | none => []
  | some a => a.slice k._count (numCuts length mat k._max_tau).toNat

/-- A record with no content, used to fill a fresh array. -/
def blankSegment : segment :=
  { _length := 0, _material := ⟨[]⟩, _region_id := 0,
    _cmfd_surface_fwd := -1, _cmfd_surface_bwd := -1 }

/-- A fresh array: blank records, nothing stored yet. -/
def blankArray : SegmentArray :=
  { cell := fun _ => blankSegment, stores := [] }

/-- A one-group material with total cross-section 1. -/
def unitMaterial : Material := ⟨[1]⟩

/-- The claim's reading of "largest per-group cross-section": an entry of the array that no
entry exceeds. -/
def IsLargestSigmaT (mat : Material) (s : ℚ) : Prop :=
  s ∈ mat.sigma_t ∧ ∀ x ∈ mat.sigma_t, x ≤ s

/-- The indices one `execute` call stores to, in the order of the stores. -/
def SegmentationKernel.storedBy (k : SegmentationKernel) (length : ℚ) (mat : Material)
    (id : Int) (cmfd_surface_fwd cmfd_surface_bwd : Int) : List Int :=
  match k._segments, (k.execute length mat id cmfd_surface_fwd cmfd_surface_bwd)._segments with
  | some before, some after => after.stores.drop before.stores.length
  | _, _ => []

/-! ## Construction of a volume kernel -/

/-- The array of OpenMP locks of the track generator, one per FSR: whether each is held. -/
structure FSRLocks where
  held : Int → Bool

/-- Track generator, as far as the constructors of lines 10-36 read it;
`getFSRLocks = none` is the `NULL` pointer. -/
structure TrackGenerator where
  retrieveMaxOpticalLength : ℚ
  getFSRLocks : Option FSRLocks
  getFSRVolumesBuffer : Int → ℚ
  getQuadrature : Quadrature

/-- Modelled from the spec: `log_printf(ERROR, ...)`, which is defined outside
`MOCKernel.cpp`, reports a fatal error: the message is logged and the caller does not
continue. -/
def log_printf_ERROR {α : Type} (msg : String) : Except String α :=
  Except.error msg

/-- `VolumeKernel::VolumeKernel`, the base constructor `MOCKernel::MOCKernel` included: the
count is 0, `max_tau` is read from the track generator, the locks are tested, then the
volume array and the quadrature are taken over and the weight is 0. -/
def VolumeKernel.VolumeKernel (track_generator : TrackGenerator) (_row_num : Int) :
    Except String OpenMOC.VolumeKernel :=
  let count : Int := 0
  let max_tau := track_generator.retrieveMaxOpticalLength
  match track_generator.getFSRLocks with
  | none =>
    log_printf_ERROR ("Unable to create a VolumeKernel without first creating FSR locks")
  | some _ =>
    Except.ok
      { _count := count
        _max_tau := max_tau
        _FSR_volumes := track_generator.getFSRVolumesBuffer
        _quadrature := track_generator.getQuadrature
        _weight := 0 }

/-- A quadrature with every spacing and weight equal to 1. -/
def unitQuadrature : Quadrature :=
  { getAzimSpacing := fun _ => 1
    getAzimWeight := fun _ => 1
    getPolarSpacing := fun _ _ => 1
    getPolarWeight := fun _ _ => 1 }

/-- A material with no energy group. -/
def emptyMaterial : Material := ⟨[]⟩

/-! ## Machine arithmetic

The definitions above compute exactly. The compiled code rounds the result of every
floating-point operation and converts the ceiling to an `int`. The definitions of this part
follow the same lines of `MOCKernel.cpp` with these three steps explicit, so that they can be
read for any arithmetic and evaluated for IEEE doubles. -/

/-- What the compiled code does to a result: `roundD` rounds the result of an operation on
`double`, `roundP` rounds a value held as `FP_PRECISION`, and `toInt` is the conversion
`(int)` applied to the integral value that `std::ceil` returns. -/
structure Machine where
  roundD : ℚ → ℚ
  roundP : ℚ → ℚ
  toInt : Int → Int

/-- No rounding and no bound on `int`: the arithmetic of the definitions above. -/
def exactMachine : Machine :=
  { roundD := id, roundP := id, toInt := id }

/-- Lines 164, 192 and 224 on a machine: `length * max_sigma_t` is a `double` product,
the quotient by `_max_tau` a `double` quotient, and the ceiling is converted to `int`. -/
def numCutsOn (M : Machine) (length : ℚ) (mat : Material) (max_tau : ℚ) : Int :=
  max (M.toInt ⌈M.roundD (M.roundD (length * maxSigmaT mat) / max_tau)⌉) 1

/-- `CounterKernel::execute` on a machine. -/
def CounterKernel.executeOn (M : Machine) (k : CounterKernel) (length : ℚ) (mat : Material)
    (_id : Int) (_cmfd_surface_fwd _cmfd_surface_bwd : Int) : CounterKernel :=
  let num_cuts := numCutsOn M length mat k._max_tau
  { k with _count := k._count + num_cuts }

/-- One `execute` call per segment of a sequence, in order, on a machine. -/
def CounterKernel.runOn (M : Machine) (k : CounterKernel) (segs : List segment) :
    CounterKernel :=
  segs.foldl (fun k s => k.executeOn M s._length s._material s._region_id
    s._cmfd_surface_fwd s._cmfd_surface_bwd) k

/-- Body of the loop of lines 227-239 on a machine: `_max_tau / max_sigma_t` is a `double`
quotient stored as `FP_PRECISION`, and `length -= temp_length` is an `FP_PRECISION`
difference. -/
def cutBodyOn (M : Machine) (max_tau max_sigma_t : ℚ) (mat : Material)
    (id cmfd_surface_bwd : Int) (st : CutLoopState) (i : Nat) : CutLoopState :=
  let temp_length := M.roundP (M.roundD (max_tau / max_sigma_t))
  { length := M.roundP (st.length - temp_length)
    _count := st._count + 1
    _segments := st._segments.store st._count
      { _length := temp_length
        _material := mat
        _region_id := id
        _cmfd_surface_fwd := -1
        _cmfd_surface_bwd := if i = 0 then cmfd_surface_bwd else -1 } }

/-- The loop `for (int i=0; i < num_cuts-1; i++)` on a machine, run for `iters` passes. -/
def cutLoopOn (M : Machine) (max_tau max_sigma_t : ℚ) (mat : Material)
    (id cmfd_surface_bwd : Int) (iters : Nat) (st : CutLoopState) : CutLoopState :=
  (List.range iters).foldl (cutBodyOn M max_tau max_sigma_t mat id cmfd_surface_bwd) st

/-- `SegmentationKernel::execute` on a machine. -/
def SegmentationKernel.executeOn (M : Machine) (k : SegmentationKernel) (length : ℚ)
    (mat : Material) (id : Int) (cmfd_surface_fwd cmfd_surface_bwd : Int) :
    SegmentationKernel :=
  match k._segments with
  | none => k
  | some segments =>
    let max_sigma_t := maxSigmaT mat
    let num_cuts := numCutsOn M length mat k._max_tau
    let st := cutLoopOn M k._max_tau max_sigma_t mat id cmfd_surface_bwd (num_cuts - 1).toNat
      { length := length, _count := k._count, _segments := segments }
    { k with
      _count := st._count + 1
      _segments := some (st._segments.store st._count
        { _length := st.length
          _material := mat
          _region_id := id
          _cmfd_surface_fwd := cmfd_surface_fwd
          _cmfd_surface_bwd := if num_cuts > 1 then -1 else cmfd_surface_bwd }) }

/-- `VolumeKernel::execute` on a machine: the product and the sum are `FP_PRECISION`
operations. -/
def VolumeKernel.executeOn (M : Machine) (k : OpenMOC.VolumeKernel) (length : ℚ)
    (mat : Material) (id : Int) (_cmfd_surface_fwd _cmfd_surface_bwd : Int) :
    OpenMOC.VolumeKernel :=
  let volumes := Function.update k._FSR_volumes id
    (M.roundP (k._FSR_volumes id + M.roundP (k._weight * length)))
  let num_cuts := numCutsOn M length mat k._max_tau
  { k with _FSR_volumes := volumes, _count := k._count + num_cuts }

/-- Virtual call of `execute` on a machine. -/
def MOCKernel.executeOn (M : Machine) (k : MOCKernel) (length : ℚ) (mat : Material)
    (id : Int) (cmfd_surface_fwd cmfd_surface_bwd : Int) : MOCKernel :=
  match k with
  | MOCKernel.volume v =>
    MOCKernel.volume (v.executeOn M length mat id cmfd_surface_fwd cmfd_surface_bwd)
  | MOCKernel.counter c =>
    MOCKernel.counter (c.executeOn M length mat id cmfd_surface_fwd cmfd_surface_bwd)
  | MOCKernel.segmentation s =>
    MOCKernel.segmentation (s.executeOn M length mat id cmfd_surface_fwd cmfd_surface_bwd)

/-- The records one `execute` call on a machine leaves at the indices
`_count, ..., _count + num_cuts - 1`, with `_count` the count before the call. -/
def SegmentationKernel.writtenOn (M : Machine) (k : SegmentationKernel) (length : ℚ)
    (mat : Material) (id : Int) (cmfd_surface_fwd cmfd_surface_bwd : Int) : List segment :=
  match (k.executeOn M length mat id cmfd_surface_fwd cmfd_surface_bwd)._segments with
  | none => []
  | some a => a.slice k._count (numCutsOn M length mat k._max_tau).toNat

/-- The length the loop stores in each pass: `temp_length` of line 228. -/
def cutLengthOn (M : Machine) (max_tau max_sigma_t : ℚ) : ℚ :=
  M.roundP (M.roundD (max_tau / max_sigma_t))

/-- The local `length` after `iters` passes of `length -= temp_length` (line 237). -/
def remainderOn (M : Machine) (temp_length : ℚ) : Nat → ℚ → ℚ
  | 0, length => length
  | iters + 1, length => M.roundP (remainderOn M temp_length iters length - temp_length)

/-- The record stored by pass `i` of the loop of lines 227-239 on a machine. -/
def cutRecordOn (M : Machine) (max_tau max_sigma_t : ℚ) (mat : Material)
    (id cmfd_surface_bwd : Int) (i : Nat) : segment :=
  { _length := cutLengthOn M max_tau max_sigma_t
    _material := mat
    _region_id := id
    _cmfd_surface_fwd := -1
    _cmfd_surface_bwd := if i = 0 then cmfd_surface_bwd else -1 }

/-- The record stored by lines 240-247 after `iters` passes of the loop on a machine. -/
def lastRecordOn (M : Machine) (max_tau max_sigma_t : ℚ) (length : ℚ) (mat : Material)
    (id cmfd_surface_fwd cmfd_surface_bwd : Int) (iters : Nat) : segment :=
  { _length := remainderOn M (cutLengthOn M max_tau max_sigma_t) iters length
    _material := mat
    _region_id := id
    _cmfd_surface_fwd := cmfd_surface_fwd
    _cmfd_surface_bwd := if iters = 0 then cmfd_surface_bwd else -1 }

/-! ### IEEE doubles -/

/-- The integer nearest to `y`, the even one of the two when `y` is halfway. -/
def roundHalfEven (y : ℚ) : Int :=
  if y - ⌊y⌋ < 1 / 2 then ⌊y⌋
  else if 1 / 2 < y - ⌊y⌋ then ⌊y⌋ + 1
  else if ⌊y⌋ % 2 = 0 then ⌊y⌋ else ⌊y⌋ + 1

/-- The exponent `e` with `2 ^ e ≤ |x| < 2 ^ (e + 1)`, for `x ≠ 0`. -/
def binade (x : ℚ) : Int := Int.log 2 |x|

/-- IEEE 754 binary64 rounding, to nearest with ties to even: the multiple of
`2 ^ (e - 52)` nearest to `x`, with `e` the exponent of `x`. Overflow and subnormal
results are not modelled: the values rounded below lie between `2 ^ (-1022)` and
`2 ^ 1024` in magnitude, or are 0. -/
def roundDouble (x : ℚ) : ℚ :=
  (roundHalfEven (x / (2 : ℚ) ^ (binade x - 52)) : ℚ) * (2 : ℚ) ^ (binade x - 52)

/-- Conversion of an integral `double` to a 32-bit `int`. Out of range the conversion is
undefined in C++; the value given here is the one the x86-64 conversion instruction
returns. -/
def toInt32 (z : Int) : Int :=
  if -2147483648 ≤ z ∧ z < 2147483648 then z else -2147483648

/-- The machine with `FP_PRECISION` taken as `double`. -/
def doubleMachine : Machine :=
  { roundD := roundDouble, roundP := roundDouble, toInt := toInt32 }

/-- The double nearest to 0.1. -/
def tenth : ℚ := 3602879701896397 / 36028797018963968

/-- The double nearest to 0.3. -/
def threeTenths : ℚ := 5404319552844595 / 18014398509481984

/-! ## Lemmas on the cut computation -/

theorem maxStep_eq_max (m s : ℚ) : maxStep m s = max m s := by
  unfold maxStep
  rcases lt_or_le m s with h | h
  · rw [if_pos h, max_eq_right h.le]
  · rw [if_neg (not_lt.mpr h), max_eq_left h]

theorem foldl_maxStep_ge_init (l : List ℚ) (m : ℚ) : m ≤ l.foldl maxStep m := by
  induction l generalizing m with
  | nil => simp
  | cons x xs ih =>
    simp only [List.foldl_cons]
    exact le_trans (by rw [maxStep_eq_max]; exact le_max_left _ _) (ih _)

theorem foldl_maxStep_ge_mem (l : List ℚ) (m : ℚ) : ∀ x ∈ l, x ≤ l.foldl maxStep m := by
  induction l generalizing m with
  | nil => simp
  | cons y ys ih =>
    intro x hx
    simp only [List.foldl_cons]
    rcases List.mem_cons.mp hx with rfl | hx
    · exact le_trans (by rw [maxStep_eq_max]; exact le_max_right _ _) (foldl_maxStep_ge_init _ _)
    · exact ih _ x hx

theorem foldl_maxStep_init_or_mem (l : List ℚ) (m : ℚ) :
    l.foldl maxStep m = m ∨ l.foldl maxStep m ∈ l := by
  induction l generalizing m with
  | nil => simp
  | cons y ys ih =>
    simp only [List.foldl_cons]
    rcases ih (maxStep m y) with h | h
    · rw [h]
      unfold maxStep
      split_ifs
      · right; exact List.mem_cons_self _ _
      · left; rfl
    · right; exact List.mem_cons_of_mem _ h

theorem maxSigmaT_nonneg (mat : Material) : 0 ≤ maxSigmaT mat :=
  foldl_maxStep_ge_init _ _

theorem maxSigmaT_ge (mat : Material) : ∀ x ∈ mat.sigma_t, x ≤ maxSigmaT mat :=
  foldl_maxStep_ge_mem _ _

/-- When the array has a positive largest entry, the loop computes it. -/
theorem maxSigmaT_eq_of_largest (mat : Material) (s : ℚ) (hs : IsLargestSigmaT mat s)
    (hpos : 0 < s) : maxSigmaT mat = s := by
  have hge : s ≤ maxSigmaT mat := maxSigmaT_ge mat s hs.1
  rcases foldl_maxStep_init_or_mem mat.sigma_t 0 with h | h
  · exfalso
    have : maxSigmaT mat = 0 := h
    linarith
  · exact le_antisymm (hs.2 _ h) hge

theorem numCuts_ge_one (length : ℚ) (mat : Material) (max_tau : ℚ) :
    1 ≤ numCuts length mat max_tau := le_max_right _ _

theorem CounterKernel.run_max_tau (segs : List segment) (k : CounterKernel) :
    (k.run segs)._max_tau = k._max_tau := by
  induction segs generalizing k with
  | nil => rfl
  | cons s ss ih =>
    show (CounterKernel.run _ ss)._max_tau = _
    rw [ih]; rfl

theorem CounterKernel.run_count (segs : List segment) (k : CounterKernel) :
    (k.run segs)._count
      = k._count + (segs.map (fun s => numCuts s._length s._material k._max_tau)).sum := by
  induction segs generalizing k with
  | nil => simp [CounterKernel.run]
  | cons s ss ih =>
    show (CounterKernel.run _ ss)._count = _
    rw [ih]
    simp only [CounterKernel.execute, List.map_cons, List.sum_cons]
    ring

/-! ## Lemmas on the loop of `SegmentationKernel::execute` -/

theorem cutLoop_succ (τ σ : ℚ) (mat : Material) (id bwd : Int) 
    (m : Nat) (st : CutLoopState) :
    cutLoop τ σ mat id bwd (m + 1) st
      = cutBody τ σ mat id bwd (cutLoop τ σ mat id bwd m st) m := by
  simp [cutLoop, List.range_succ, List.foldl_append]

theorem cutLoop_count (τ σ : ℚ) (mat : Material) (id bwd : Int) 
    (m : Nat) (st : CutLoopState) :
    (cutLoop τ σ mat id bwd m st)._count = st._count + (m : Int) := by
  induction m with
  | zero => simp [cutLoop]
  | succ m ih =>
    rw [cutLoop_succ τ σ mat id bwd]
    simp only [cutBody, ih]
    push_cast
    ring

theorem cutLoop_length (τ σ : ℚ) (mat : Material) (id bwd : Int) 
    (m : Nat) (st : CutLoopState) :
    (cutLoop τ σ mat id bwd m st).length = st.length - (m : ℚ) * (τ / σ) := by
  induction m with
  | zero => simp [cutLoop]
  | succ m ih =>
    rw [cutLoop_succ τ σ mat id bwd]
    simp only [cutBody, ih]
    push_cast
    ring

theorem cutLoop_stores (τ σ : ℚ) (mat : Material) (id bwd : Int) 
    (m : Nat) (st : CutLoopState) :
    (cutLoop τ σ mat id bwd m st)._segments.stores
      = st._segments.stores ++ (List.range m).map (fun (j : Nat) => st._count + (j : Int)) := by
  induction m with
  | zero => simp [cutLoop]
  | succ m ih =>
    rw [cutLoop_succ τ σ mat id bwd]
    simp only [cutBody, SegmentArray.store, ih, cutLoop_count, List.range_succ,
      List.map_append, List.map_cons, List.map_nil, List.append_assoc]

theorem cutLoop_cell_in (τ σ : ℚ) (mat : Material) (id bwd : Int) 
    (m : Nat) (st : CutLoopState) (i : Nat) (hi : i < m) :
    (cutLoop τ σ mat id bwd m st)._segments.cell (st._count + (i : Int))
      = cutRecord τ σ mat id bwd i := by
  induction m with
  | zero => omega
  | succ m ih =>
    rw [cutLoop_succ τ σ mat id bwd]
    simp only [cutBody, SegmentArray.store, cutLoop_count]
    rcases Nat.lt_succ_iff_lt_or_eq.mp hi with h | h
    · rw [Function.update_noteq (by omega)]
      exact ih h
    · subst h
      rw [Function.update_same]
      rfl

theorem cutLoop_cell_out (τ σ : ℚ) (mat : Material) (id bwd : Int) 
    (m : Nat) (st : CutLoopState) (j : Int)
    (hj : j < st._count ∨ st._count + (m : Int) ≤ j) :
    (cutLoop τ σ mat id bwd m st)._segments.cell j = st._segments.cell j := by
  induction m with
  | zero => simp [cutLoop]
  | succ m ih =>
    rw [cutLoop_succ τ σ mat id bwd]
    simp only [cutBody, SegmentArray.store, cutLoop_count]
    rw [Function.update_noteq (by push_cast at hj; omega)]
    exact ih (by push_cast at hj; omega)

/-! ## The effect of one `SegmentationKernel::execute` call on a bound buffer -/

theorem numCuts_toNat (length : ℚ) (mat : Material) (max_tau : ℚ) :
    (numCuts length mat max_tau).toNat = (numCuts length mat max_tau - 1).toNat + 1 := by
  have := numCuts_ge_one length mat max_tau
  omega

theorem numCuts_pred_cast (length : ℚ) (mat : Material) (max_tau : ℚ) :
    (((numCuts length mat max_tau - 1).toNat : Nat) : Int) = numCuts length mat max_tau - 1 := by
  have := numCuts_ge_one length mat max_tau
  omega

/-- The array a bound segmentation kernel points to after one `execute` call. -/
theorem SegmentationKernel.execute_some (k : SegmentationKernel) (buf : SegmentArray)
    (hb : k._segments = some buf) (length : ℚ) (mat : Material) (id fwd bwd : Int) :
    k.execute length mat id fwd bwd =
      { _count := k._count + numCuts length mat k._max_tau
        _max_tau := k._max_tau
        _segments := some
          ((cutLoop k._max_tau (maxSigmaT mat) mat id bwd
              (numCuts length mat k._max_tau - 1).toNat ⟨length, k._count, buf⟩)._segments.store
            (k._count + numCuts length mat k._max_tau - 1)
            (lastRecord k._max_tau (maxSigmaT mat) length mat id fwd bwd
              (numCuts length mat k._max_tau - 1).toNat)) } := by
  have h1 := numCuts_ge_one length mat k._max_tau
  have hc := numCuts_pred_cast length mat k._max_tau
  unfold SegmentationKernel.execute
  rw [hb]
  simp only [cutLoop_count, cutLoop_length, lastRecord, hc]
  have hif : (if numCuts length mat k._max_tau > 1 then (-1 : Int) else bwd)
      = if (numCuts length mat k._max_tau - 1).toNat = 0 then bwd else -1 := by
    by_cases h : numCuts length mat k._max_tau > 1
    · rw [if_pos h, if_neg (by omega)]
    · rw [if_neg h, if_pos (by omega)]
  rw [hif]
  have e1 : k._count + (numCuts length mat k._max_tau - 1) + 1
      = k._count + numCuts length mat k._max_tau := by ring
  have e2 : k._count + (numCuts length mat k._max_tau - 1)
      = k._count + numCuts length mat k._max_tau - 1 := by ring
  rw [e1, e2]

/-- The records written by one call: the loop's records, then the last one. -/
theorem SegmentationKernel.written_eq (k : SegmentationKernel) (buf : SegmentArray)
    (hb : k._segments = some buf) (length : ℚ) (mat : Material) (id fwd bwd : Int) :
    k.written length mat id fwd bwd
      = (List.range (numCuts length mat k._max_tau - 1).toNat).map
            (cutRecord k._max_tau (maxSigmaT mat) mat id bwd)
          ++ [lastRecord k._max_tau (maxSigmaT mat) length mat id fwd bwd
                (numCuts length mat k._max_tau - 1).toNat] := by
  have hc := numCuts_pred_cast length mat k._max_tau
  unfold SegmentationKernel.written
  rw [SegmentationKernel.execute_some k buf hb]
  simp only [SegmentArray.slice, SegmentArray.store]
  rw [numCuts_toNat, List.range_succ, List.map_append, List.map_cons, List.map_nil]
  congr 1
  · apply List.map_congr_left
    intro j hj
    have hj2 : j < (numCuts length mat k._max_tau - 1).toNat := List.mem_range.mp hj
    rw [Function.update_noteq (by omega)]
    exact cutLoop_cell_in k._max_tau (maxSigmaT mat) mat id bwd _ ⟨length, k._count, buf⟩ j hj2
  · rw [hc]
    have e : k._count + (numCuts length mat k._max_tau - 1)
        = k._count + numCuts length mat k._max_tau - 1 := by ring
    rw [e, Function.update_same]

theorem SegmentationKernel.written_length (k : SegmentationKernel) (buf : SegmentArray)
    (hb : k._segments = some buf) (length : ℚ) (mat : Material) (id fwd bwd : Int) :
    (k.written length mat id fwd bwd).length = (numCuts length mat k._max_tau).toNat := by
  rw [SegmentationKernel.written_eq k buf hb, numCuts_toNat]
  simp

theorem sum_cutRecord_length (τ σ : ℚ) (mat : Material) (id bwd : Int) (m : Nat) :
    (((List.range m).map (cutRecord τ σ mat id bwd)).map (fun r => r._length)).sum
      = (m : ℚ) * (τ / σ) := by
  induction m with
  | zero => simp
  | succ m ih =>
    rw [List.range_succ, List.map_append, List.map_append, List.sum_append, ih]
    simp only [List.map_cons, List.map_nil, List.sum_cons, List.sum_nil, cutRecord]
    push_cast
    ring

/-! ## Arithmetic of the remainder -/

theorem numCuts_eq_ceil (length : ℚ) (mat : Material) (max_tau : ℚ)
    (hL : 0 < length) (hτ : 0 < max_tau) (hσ : 0 < maxSigmaT mat) :
    numCuts length mat max_tau = ⌈length * maxSigmaT mat / max_tau⌉ := by
  unfold numCuts
  apply max_eq_left
  exact Int.one_le_ceil_iff.mpr (div_pos (mul_pos hL hσ) hτ)

theorem iters_cast (length : ℚ) (mat : Material) (max_tau : ℚ) :
    (((numCuts length mat max_tau - 1).toNat : Nat) : ℚ)
      = ((numCuts length mat max_tau : Int) : ℚ) - 1 := by
  have h := numCuts_pred_cast length mat max_tau
  have : ((((numCuts length mat max_tau - 1).toNat : Nat) : Int) : ℚ)
      = ((numCuts length mat max_tau - 1 : Int) : ℚ) := by rw [h]
  push_cast at this
  exact this

/-- The remainder stored by the last record is positive. -/
theorem remainder_pos (length : ℚ) (mat : Material) (max_tau : ℚ)
    (hL : 0 < length) (hτ : 0 < max_tau) (hσ : 0 < maxSigmaT mat) :
    0 < length - (((numCuts length mat max_tau - 1).toNat : Nat) : ℚ)
          * (max_tau / maxSigmaT mat) := by
  rw [iters_cast, numCuts_eq_ceil length mat max_tau hL hτ hσ]
  have h1 := Int.ceil_lt_add_one (length * maxSigmaT mat / max_tau)
  have ht : 0 < max_tau / maxSigmaT mat := div_pos hτ hσ
  have hL2 : length * maxSigmaT mat / max_tau * (max_tau / maxSigmaT mat) = length := by
    field_simp
  have : ((⌈length * maxSigmaT mat / max_tau⌉ : Int) : ℚ) - 1
      < length * maxSigmaT mat / max_tau := by linarith
  have := mul_lt_mul_of_pos_right this ht
  rw [hL2] at this
  linarith

/-- The remainder stored by the last record has optical thickness at most `max_tau`. -/
theorem remainder_tau_le (length : ℚ) (mat : Material) (max_tau : ℚ)
    (hL : 0 < length) (hτ : 0 < max_tau) (hσ : 0 < maxSigmaT mat) :
    (length - (((numCuts length mat max_tau - 1).toNat : Nat) : ℚ)
          * (max_tau / maxSigmaT mat)) * maxSigmaT mat ≤ max_tau := by
  rw [iters_cast, numCuts_eq_ceil length mat max_tau hL hτ hσ]
  have h1 := Int.le_ceil (length * maxSigmaT mat / max_tau)
  have h2 : length * maxSigmaT mat / max_tau * max_tau = length * maxSigmaT mat := by
    field_simp
  have h3 := mul_le_mul_of_nonneg_right h1 hτ.le
  rw [h2] at h3
  have h4 : (length - (((⌈length * maxSigmaT mat / max_tau⌉ : Int) : ℚ) - 1)
      * (max_tau / maxSigmaT mat)) * maxSigmaT mat
      = length * maxSigmaT mat
        - (((⌈length * maxSigmaT mat / max_tau⌉ : Int) : ℚ) - 1) * max_tau := by
    field_simp
  rw [h4]
  linarith

theorem SegmentationKernel.written_getElem? (k : SegmentationKernel) (buf : SegmentArray)
    (hb : k._segments = some buf) (length : ℚ) (mat : Material) (id fwd bwd : Int)
    (j : Nat) (hj : j < (numCuts length mat k._max_tau).toNat) :
    (k.written length mat id fwd bwd)[j]?
      = some (if j < (numCuts length mat k._max_tau - 1).toNat
          then cutRecord k._max_tau (maxSigmaT mat) mat id bwd j
          else lastRecord k._max_tau (maxSigmaT mat) length mat id fwd bwd
                (numCuts length mat k._max_tau - 1).toNat) := by
  rw [SegmentationKernel.written_eq k buf hb]
  rw [numCuts_toNat] at hj
  by_cases h : j < (numCuts length mat k._max_tau - 1).toNat
  · rw [if_pos h, List.getElem?_append_left (by rw [List.length_map, List.length_range]; exact h),
      List.getElem?_map, List.getElem?_range h]
    rfl
  · have hjm : j = (numCuts length mat k._max_tau - 1).toNat := by omega
    rw [if_neg h, List.getElem?_append_right
      (by rw [List.length_map, List.length_range]; omega),
      List.length_map, List.length_range, ← hjm, Nat.sub_self]
    rfl

theorem countBwd_written (τ σ length : ℚ) (mat : Material) (id fwd bwd : Int) (m : Nat)
    (h : bwd ≠ -1) :
    countBwd bwd ((List.range m).map (cutRecord τ σ mat id bwd)
      ++ [lastRecord τ σ length mat id fwd bwd m]) = 1 := by
  unfold countBwd
  cases m with
  | zero => simp [lastRecord]
  | succ n =>
    rw [List.range_succ_eq_map, List.map_cons, List.cons_append, List.filter_cons_of_pos
      (by simp [cutRecord])]
    have hnil : List.filter (fun r => decide (r._cmfd_surface_bwd = bwd))
        (List.map (cutRecord τ σ mat id bwd) (List.map Nat.succ (List.range n))
          ++ [lastRecord τ σ length mat id fwd bwd (n + 1)]) = [] := by
      rw [List.filter_eq_nil_iff]
      intro r hr
      rcases List.mem_append.mp hr with hr | hr
      · obtain ⟨j, hj, rfl⟩ := List.mem_map.mp hr
        obtain ⟨i, _, rfl⟩ := List.mem_map.mp hj
        simp [cutRecord]
        exact fun e => h e.symm
      · rw [List.mem_singleton] at hr
        subst hr
        simp [lastRecord]
        exact fun e => h e.symm
    rw [hnil]
    rfl

theorem countFwd_written (τ σ length : ℚ) (mat : Material) (id fwd bwd : Int) (m : Nat)
    (h : fwd ≠ -1) :
    countFwd fwd ((List.range m).map (cutRecord τ σ mat id bwd)
      ++ [lastRecord τ σ length mat id fwd bwd m]) = 1 := by
  unfold countFwd
  have hnil : List.filter (fun r => decide (r._cmfd_surface_fwd = fwd))
      ((List.range m).map (cutRecord τ σ mat id bwd)) = [] := by
    rw [List.filter_eq_nil_iff]
    intro r hr
    obtain ⟨j, _, rfl⟩ := List.mem_map.mp hr
    simp [cutRecord]
    exact fun e => h e.symm
  rw [List.filter_append, hnil]
  simp [lastRecord]

/-! ## Evaluation at sample inputs -/

theorem maxSigmaT_unitMaterial : maxSigmaT unitMaterial = 1 := by decide

theorem numCuts_25_10 : numCuts 25 unitMaterial 10 = 3 := by
  unfold numCuts
  rw [maxSigmaT_unitMaterial]
  have : ⌈(25 : ℚ) * 1 / 10⌉ = 3 := by
    rw [Int.ceil_eq_iff]
    norm_num
  rw [this]
  rfl

/-! ## Runs of a bound segmentation kernel -/

theorem sum_numCuts_nonneg (segs : List segment) (max_tau : ℚ) :
    0 ≤ (segs.map (fun s => numCuts s._length s._material max_tau)).sum := by
  induction segs with
  | nil => simp
  | cons s ss ih =>
    rw [List.map_cons, List.sum_cons]
    have := numCuts_ge_one s._length s._material max_tau
    omega

/-- One call on a bound buffer: the new count and the indices stored to. -/
theorem SegmentationKernel.execute_stores (k : SegmentationKernel) (buf : SegmentArray)
    (hb : k._segments = some buf) (length : ℚ) (mat : Material) (id fwd bwd : Int) :
    ∃ buf1 : SegmentArray,
      k.execute length mat id fwd bwd
          = ⟨k._count + numCuts length mat k._max_tau, k._max_tau, some buf1⟩
        ∧ buf1.stores = buf.stores
            ++ (List.range (numCuts length mat k._max_tau).toNat).map
                (fun (j : Nat) => k._count + (j : Int)) := by
  refine ⟨_, SegmentationKernel.execute_some k buf hb length mat id fwd bwd, ?_⟩
  have hc := numCuts_pred_cast length mat k._max_tau
  simp only [SegmentArray.store, cutLoop_stores]
  rw [numCuts_toNat, List.range_succ, List.map_append, List.map_cons, List.map_nil, hc,
    List.append_assoc]
  have e : k._count + (numCuts length mat k._max_tau - 1)
      = k._count + numCuts length mat k._max_tau - 1 := by ring
  rw [e]

/-- A run on a bound buffer: the new count and the indices stored to, in order. -/
theorem SegmentationKernel.run_stores (segs : List segment) :
    ∀ (k : SegmentationKernel) (buf : SegmentArray), k._segments = some buf →
      ∃ buf1 : SegmentArray,
        k.run segs
            = ⟨k._count + (segs.map (fun s => numCuts s._length s._material k._max_tau)).sum,
                k._max_tau, some buf1⟩
          ∧ buf1.stores = buf.stores
              ++ (List.range
                    (segs.map (fun s => numCuts s._length s._material k._max_tau)).sum.toNat).map
                  (fun (j : Nat) => k._count + (j : Int)) := by
  induction segs with
  | nil =>
    intro k buf hb
    refine ⟨buf, ?_, by simp⟩
    cases k
    simp only [SegmentationKernel.run, List.foldl_nil, List.map_nil, List.sum_nil, add_zero]
    simp only at hb
    rw [hb]
  | cons s ss ih =>
    intro k buf hb
    obtain ⟨buf1, he, hs1⟩ := SegmentationKernel.execute_stores k buf hb s._length s._material
      s._region_id s._cmfd_surface_fwd s._cmfd_surface_bwd
    obtain ⟨buf2, hr, hs2⟩ := ih
      (k.execute s._length s._material s._region_id s._cmfd_surface_fwd s._cmfd_surface_bwd)
      buf1 (by rw [he])
    have h1 := numCuts_ge_one s._length s._material k._max_tau
    have h2 := sum_numCuts_nonneg ss k._max_tau
    refine ⟨buf2, ?_, ?_⟩
    · show SegmentationKernel.run _ ss = _
      rw [hr, he]
      simp only [List.map_cons, List.sum_cons, add_assoc]
    · rw [hs2, hs1, he]
      simp only [List.map_cons, List.sum_cons, List.append_assoc]
      congr 1
      rw [Int.toNat_add (by omega) h2, List.range_add, List.map_append, List.map_map]
      congr 1
      apply List.map_congr_left
      intro j _
      simp only [Function.comp]
      push_cast
      rw [Int.toNat_of_nonneg (by omega)]
      ring

/-! ## Further facts on one call and on runs -/

/-- One call on a bound buffer: the records outside the written range stay, and the record
at each index of the range is the loop's record or the last one. -/
theorem SegmentationKernel.execute_cells (k : SegmentationKernel) (buf : SegmentArray)
    (hb : k._segments = some buf) (length : ℚ) (mat : Material) (id fwd bwd : Int) :
    ∃ buf1 : SegmentArray,
      (k.execute length mat id fwd bwd)._segments = some buf1
        ∧ (∀ j : Int, j < k._count ∨ k._count + numCuts length mat k._max_tau ≤ j →
            buf1.cell j = buf.cell j)
        ∧ (∀ i : Nat, i < (numCuts length mat k._max_tau).toNat →
            buf1.cell (k._count + (i : Int))
              = if i < (numCuts length mat k._max_tau - 1).toNat
                then cutRecord k._max_tau (maxSigmaT mat) mat id bwd i
                else lastRecord k._max_tau (maxSigmaT mat) length mat id fwd bwd
                      (numCuts length mat k._max_tau - 1).toNat) := by
  have hc := numCuts_pred_cast length mat k._max_tau
  have h1 := numCuts_ge_one length mat k._max_tau
  refine ⟨_, by rw [SegmentationKernel.execute_some k buf hb], ?_, ?_⟩
  · intro j hj
    simp only [SegmentArray.store]
    rw [Function.update_noteq (by omega)]
    exact cutLoop_cell_out k._max_tau (maxSigmaT mat) mat id bwd _ ⟨length, k._count, buf⟩ j
      (by simp only [hc]; omega)
  · intro i hi
    simp only [SegmentArray.store]
    by_cases h : i < (numCuts length mat k._max_tau - 1).toNat
    · rw [if_pos h, Function.update_noteq (by omega)]
      exact cutLoop_cell_in k._max_tau (maxSigmaT mat) mat id bwd _ ⟨length, k._count, buf⟩ i h
    · have e : k._count + (i : Int) = k._count + numCuts length mat k._max_tau - 1 := by omega
      rw [if_neg h, e, Function.update_same]

/-- The indices one call on a bound buffer stores to. -/
theorem SegmentationKernel.storedBy_eq (k : SegmentationKernel) (buf : SegmentArray)
    (hb : k._segments = some buf) (length : ℚ) (mat : Material) (id fwd bwd : Int) :
    k.storedBy length mat id fwd bwd
      = (List.range (numCuts length mat k._max_tau).toNat).map
          (fun (j : Nat) => k._count + (j : Int)) := by
  obtain ⟨buf1, he, hs⟩ := SegmentationKernel.execute_stores k buf hb length mat id fwd bwd
  unfold SegmentationKernel.storedBy
  rw [he, hb]
  simp only [hs, List.drop_left]

/-- A bound kernel stays bound over a run, with the same `max_tau`. -/
theorem SegmentationKernel.run_bound (segs : List segment) (k : SegmentationKernel)
    (buf : SegmentArray) (hb : k._segments = some buf) :
    ∃ buf1 : SegmentArray,
      (k.run segs)._segments = some buf1
        ∧ (k.run segs)._max_tau = k._max_tau
        ∧ (k.run segs)._count
            = k._count + (segs.map (fun s => numCuts s._length s._material k._max_tau)).sum := by
  obtain ⟨buf1, hr, _⟩ := SegmentationKernel.run_stores segs k buf hb
  exact ⟨buf1, by rw [hr], by rw [hr], by rw [hr]⟩

theorem SegmentationKernel.run_append (k : SegmentationKernel) (xs ys : List segment) :
    k.run (xs ++ ys) = (k.run xs).run ys := by
  simp [SegmentationKernel.run, List.foldl_append]

theorem SegmentationKernel.run_cons (k : SegmentationKernel) (s : segment)
    (ss : List segment) :
    k.run (s :: ss)
      = (k.execute s._length s._material s._region_id s._cmfd_surface_fwd
          s._cmfd_surface_bwd).run ss := rfl

/-- With one cut, the call writes the segment as it came. -/
theorem SegmentationKernel.written_of_one (k : SegmentationKernel) (buf : SegmentArray)
    (hb : k._segments = some buf) (length : ℚ) (mat : Material) (id fwd bwd : Int)
    (h1 : numCuts length mat k._max_tau = 1) :
    k.written length mat id fwd bwd = [⟨length, mat, id, fwd, bwd⟩] := by
  rw [SegmentationKernel.written_eq k buf hb, h1]
  simp [lastRecord]

/-! ## Further arithmetic of the number of cuts -/

theorem numCuts_eq_one_of_nonpos (length : ℚ) (mat : Material) (max_tau : ℚ)
    (h : length * maxSigmaT mat / max_tau ≤ 0) : numCuts length mat max_tau = 1 := by
  unfold numCuts
  apply max_eq_right
  have : ⌈length * maxSigmaT mat / max_tau⌉ ≤ 0 := Int.ceil_le.mpr (by exact_mod_cast h)
  omega

theorem maxSigmaT_eq_zero (mat : Material) (h : ∀ s ∈ mat.sigma_t, s ≤ 0) :
    maxSigmaT mat = 0 := by
  rcases foldl_maxStep_init_or_mem mat.sigma_t 0 with h0 | hm
  · exact h0
  · exact le_antisymm (h _ hm) (maxSigmaT_nonneg mat)

theorem numCuts_of_int_ratio (length : ℚ) (mat : Material) (max_tau : ℚ) (n : Int)
    (hn : 0 < n) (h : length * maxSigmaT mat / max_tau = (n : ℚ)) :
    numCuts length mat max_tau = n := by
  unfold numCuts
  rw [h, Int.ceil_intCast]
  exact max_eq_left (by omega)

theorem numCuts_mono_length (mat : Material) (max_tau : ℚ) (hτ : 0 < max_tau)
    (l1 l2 : ℚ) (h : l1 ≤ l2) : numCuts l1 mat max_tau ≤ numCuts l2 mat max_tau := by
  unfold numCuts
  apply max_le_max _ le_rfl
  apply Int.ceil_mono
  exact div_le_div_of_nonneg_right (mul_le_mul_of_nonneg_right h (maxSigmaT_nonneg mat)) hτ.le

theorem numCuts_anti_tau (mat : Material) (length : ℚ) (hL : 0 ≤ length)
    (t1 t2 : ℚ) (h1 : 0 < t1) (h : t1 ≤ t2) :
    numCuts length mat t2 ≤ numCuts length mat t1 := by
  unfold numCuts
  apply max_le_max _ le_rfl
  apply Int.ceil_mono
  exact div_le_div_of_nonneg_left (mul_nonneg hL (maxSigmaT_nonneg mat)) h1 h

/-! ## The count behind the kernel interface -/

/-- The count after one virtual `execute` call, by variant. -/
theorem MOCKernel.getCount_execute (k : MOCKernel) (length : ℚ) (mat : Material)
    (id fwd bwd : Int) :
    (k.execute length mat id fwd bwd).getCount
      = if k.hasBuffer then k.getCount + numCuts length mat k.max_tau else k.getCount := by
  cases k with
  | volume v => rfl
  | counter c => rfl
  | segmentation sk =>
    cases hb : sk._segments with
    | none =>
      have e : sk.execute length mat id fwd bwd = sk := by
        unfold SegmentationKernel.execute
        rw [hb]
      simp [MOCKernel.execute, MOCKernel.getCount, MOCKernel.hasBuffer, hb, e]
    | some buf =>
      simp [MOCKernel.execute, MOCKernel.getCount, MOCKernel.hasBuffer, MOCKernel.max_tau, hb,
        SegmentationKernel.execute_some sk buf hb]

/-- Indices stored for an earlier segment of a run lie below those of a later one. -/
theorem SegmentationKernel.storedBy_lt (k : SegmentationKernel) (buf : SegmentArray)
    (hb : k._segments = some buf) (pre : List segment) (s : segment) (mid : List segment)
    (t : segment) :
    ∀ i ∈ (k.run pre).storedBy s._length s._material s._region_id s._cmfd_surface_fwd
        s._cmfd_surface_bwd,
      ∀ j ∈ (k.run (pre ++ s :: mid)).storedBy t._length t._material t._region_id
          t._cmfd_surface_fwd t._cmfd_surface_bwd,
        i < j := by
  obtain ⟨b1, hb1, _, _⟩ := SegmentationKernel.run_bound pre k buf hb
  obtain ⟨b2, he, _⟩ := SegmentationKernel.execute_stores (k.run pre) b1 hb1 s._length
    s._material s._region_id s._cmfd_surface_fwd s._cmfd_surface_bwd
  obtain ⟨b3, hb3, _, hc3⟩ := SegmentationKernel.run_bound mid
    ((k.run pre).execute s._length s._material s._region_id s._cmfd_surface_fwd
      s._cmfd_surface_bwd) b2 (by rw [he])
  have hrun : k.run (pre ++ s :: mid)
      = ((k.run pre).execute s._length s._material s._region_id s._cmfd_surface_fwd
          s._cmfd_surface_bwd).run mid := by
    rw [SegmentationKernel.run_append, SegmentationKernel.run_cons]
  rw [hrun, SegmentationKernel.storedBy_eq _ b1 hb1, SegmentationKernel.storedBy_eq _ b3 hb3,
    hc3]
  intro i hi j hj
  obtain ⟨a, ha, rfl⟩ := List.mem_map.mp hi
  obtain ⟨b, _, rfl⟩ := List.mem_map.mp hj
  have ha2 := List.mem_range.mp ha
  have h1 := numCuts_ge_one s._length s._material (k.run pre)._max_tau
  have h2 := sum_numCuts_nonneg mid
    ((k.run pre).execute s._length s._material s._region_id s._cmfd_surface_fwd
      s._cmfd_surface_bwd)._max_tau
  rw [he] at h2 ⊢
  simp only at h2 ⊢
  omega

/-! ## The kernels on a machine -/

theorem numCutsOn_exact (length : ℚ) (mat : Material) (max_tau : ℚ) :
    numCutsOn exactMachine length mat max_tau = numCuts length mat max_tau := rfl

theorem numCutsOn_ge_one (M : Machine) (length : ℚ) (mat : Material) (max_tau : ℚ) :
    1 ≤ numCutsOn M length mat max_tau := le_max_right _ _

theorem numCutsOn_toNat (M : Machine) (length : ℚ) (mat : Material) (max_tau : ℚ) :
    (numCutsOn M length mat max_tau).toNat = (numCutsOn M length mat max_tau - 1).toNat + 1 := by
  have := numCutsOn_ge_one M length mat max_tau
  omega

theorem numCutsOn_pred_cast (M : Machine) (length : ℚ) (mat : Material) (max_tau : ℚ) :
    (((numCutsOn M length mat max_tau - 1).toNat : Nat) : Int)
      = numCutsOn M length mat max_tau - 1 := by
  have := numCutsOn_ge_one M length mat max_tau
  omega

theorem cutLoopOn_succ (M : Machine) (τ σ : ℚ) (mat : Material) (id bwd : Int)
    (m : Nat) (st : CutLoopState) :
    cutLoopOn M τ σ mat id bwd (m + 1) st
      = cutBodyOn M τ σ mat id bwd (cutLoopOn M τ σ mat id bwd m st) m := by
  simp [cutLoopOn, List.range_succ, List.foldl_append]

theorem cutLoopOn_count (M : Machine) (τ σ : ℚ) (mat : Material) (id bwd : Int)
    (m : Nat) (st : CutLoopState) :
    (cutLoopOn M τ σ mat id bwd m st)._count = st._count + (m : Int) := by
  induction m with
  | zero => simp [cutLoopOn]
  | succ m ih =>
    rw [cutLoopOn_succ]
    simp only [cutBodyOn, ih]
    push_cast
    ring

theorem cutLoopOn_length (M : Machine) (τ σ : ℚ) (mat : Material) (id bwd : Int)
    (m : Nat) (st : CutLoopState) :
    (cutLoopOn M τ σ mat id bwd m st).length
      = remainderOn M (cutLengthOn M τ σ) m st.length := by
  induction m with
  | zero => simp [cutLoopOn, remainderOn]
  | succ m ih =>
    rw [cutLoopOn_succ]
    simp only [cutBodyOn, ih, remainderOn, cutLengthOn]

theorem cutLoopOn_stores (M : Machine) (τ σ : ℚ) (mat : Material) (id bwd : Int)
    (m : Nat) (st : CutLoopState) :
    (cutLoopOn M τ σ mat id bwd m st)._segments.stores
      = st._segments.stores ++ (List.range m).map (fun (j : Nat) => st._count + (j : Int)) := by
  induction m with
  | zero => simp [cutLoopOn]
  | succ m ih =>
    rw [cutLoopOn_succ]
    simp only [cutBodyOn, SegmentArray.store, ih, cutLoopOn_count, List.range_succ,
      List.map_append, List.map_cons, List.map_nil, List.append_assoc]

theorem cutLoopOn_cell_in (M : Machine) (τ σ : ℚ) (mat : Material) (id bwd : Int)
    (m : Nat) (st : CutLoopState) (i : Nat) (hi : i < m) :
    (cutLoopOn M τ σ mat id bwd m st)._segments.cell (st._count + (i : Int))
      = cutRecordOn M τ σ mat id bwd i := by
  induction m with
  | zero => omega
  | succ m ih =>
    rw [cutLoopOn_succ]
    simp only [cutBodyOn, SegmentArray.store, cutLoopOn_count]
    rcases Nat.lt_succ_iff_lt_or_eq.mp hi with h | h
    · rw [Function.update_noteq (by omega)]
      exact ih h
    · subst h
      rw [Function.update_same]
      rfl

/-- The array a bound segmentation kernel points to after one `execute` call on a
machine. -/
theorem SegmentationKernel.executeOn_some (M : Machine) (k : SegmentationKernel)
    (buf : SegmentArray) (hb : k._segments = some buf) (length : ℚ) (mat : Material)
    (id fwd bwd : Int) :
    k.executeOn M length mat id fwd bwd =
      { _count := k._count + numCutsOn M length mat k._max_tau
        _max_tau := k._max_tau
        _segments := some
          ((cutLoopOn M k._max_tau (maxSigmaT mat) mat id bwd
              (numCutsOn M length mat k._max_tau - 1).toNat
              ⟨length, k._count, buf⟩)._segments.store
            (k._count + numCutsOn M length mat k._max_tau - 1)
            (lastRecordOn M k._max_tau (maxSigmaT mat) length mat id fwd bwd
              (numCutsOn M length mat k._max_tau - 1).toNat)) } := by
  have h1 := numCutsOn_ge_one M length mat k._max_tau
  have hc := numCutsOn_pred_cast M length mat k._max_tau
  unfold SegmentationKernel.executeOn
  rw [hb]
  simp only [cutLoopOn_count, cutLoopOn_length, lastRecordOn, hc]
  have hif : (if numCutsOn M length mat k._max_tau > 1 then (-1 : Int) else bwd)
      = if (numCutsOn M length mat k._max_tau - 1).toNat = 0 then bwd else -1 := by
    by_cases h : numCutsOn M length mat k._max_tau > 1
    · rw [if_pos h, if_neg (by omega)]
    · rw [if_neg h, if_pos (by omega)]
  rw [hif]
  have e1 : k._count + (numCutsOn M length mat k._max_tau - 1) + 1
      = k._count + numCutsOn M length mat k._max_tau := by ring
  have e2 : k._count + (numCutsOn M length mat k._max_tau - 1)
      = k._count + numCutsOn M length mat k._max_tau - 1 := by ring
  rw [e1, e2]

/-- The records written by one call on a machine: the loop's records, then the last one. -/
theorem SegmentationKernel.writtenOn_eq (M : Machine) (k : SegmentationKernel)
    (buf : SegmentArray) (hb : k._segments = some buf) (length : ℚ) (mat : Material)
    (id fwd bwd : Int) :
    k.writtenOn M length mat id fwd bwd
      = (List.range (numCutsOn M length mat k._max_tau - 1).toNat).map
            (cutRecordOn M k._max_tau (maxSigmaT mat) mat id bwd)
          ++ [lastRecordOn M k._max_tau (maxSigmaT mat) length mat id fwd bwd
                (numCutsOn M length mat k._max_tau - 1).toNat] := by
  have hc := numCutsOn_pred_cast M length mat k._max_tau
  unfold SegmentationKernel.writtenOn
  rw [SegmentationKernel.executeOn_some M k buf hb]
  simp only [SegmentArray.slice, SegmentArray.store]
  rw [numCutsOn_toNat, List.range_succ, List.map_append, List.map_cons, List.map_nil]
  congr 1
  · apply List.map_congr_left
    intro j hj
    have hj2 : j < (numCutsOn M length mat k._max_tau - 1).toNat := List.mem_range.mp hj
    rw [Function.update_noteq (by omega)]
    exact cutLoopOn_cell_in M k._max_tau (maxSigmaT mat) mat id bwd _ ⟨length, k._count, buf⟩
      j hj2
  · rw [hc]
    have e : k._count + (numCutsOn M length mat k._max_tau - 1)
        = k._count + numCutsOn M length mat k._max_tau - 1 := by ring
    rw [e, Function.update_same]

theorem SegmentationKernel.writtenOn_length (M : Machine) (k : SegmentationKernel)
    (buf : SegmentArray) (hb : k._segments = some buf) (length : ℚ) (mat : Material)
    (id fwd bwd : Int) :
    (k.writtenOn M length mat id fwd bwd).length
      = (numCutsOn M length mat k._max_tau).toNat := by
  rw [SegmentationKernel.writtenOn_eq M k buf hb, numCutsOn_toNat]
  simp

theorem SegmentationKernel.writtenOn_getElem? (M : Machine) (k : SegmentationKernel)
    (buf : SegmentArray) (hb : k._segments = some buf) (length : ℚ) (mat : Material)
    (id fwd bwd : Int) (j : Nat) (hj : j < (numCutsOn M length mat k._max_tau).toNat) :
    (k.writtenOn M length mat id fwd bwd)[j]?
      = some (if j < (numCutsOn M length mat k._max_tau - 1).toNat
          then cutRecordOn M k._max_tau (maxSigmaT mat) mat id bwd j
          else lastRecordOn M k._max_tau (maxSigmaT mat) length mat id fwd bwd
                (numCutsOn M length mat k._max_tau - 1).toNat) := by
  rw [SegmentationKernel.writtenOn_eq M k buf hb]
  rw [numCutsOn_toNat] at hj
  by_cases h : j < (numCutsOn M length mat k._max_tau - 1).toNat
  · rw [if_pos h, List.getElem?_append_left (by rw [List.length_map, List.length_range]; exact h),
      List.getElem?_map, List.getElem?_range h]
    rfl
  · have hjm : j = (numCutsOn M length mat k._max_tau - 1).toNat := by omega
    rw [if_neg h, List.getElem?_append_right
      (by rw [List.length_map, List.length_range]; omega),
      List.length_map, List.length_range, ← hjm, Nat.sub_self]
    rfl

theorem remainderOn_exact (t : ℚ) (m : Nat) (l : ℚ) :
    remainderOn exactMachine t m l = l - (m : ℚ) * t := by
  induction m with
  | zero => simp [remainderOn]
  | succ m ih =>
    show remainderOn exactMachine t m l - t = _
    rw [ih]
    push_cast
    ring

/-- Without rounding the machine kernel is the kernel of the exact definitions. -/
theorem SegmentationKernel.writtenOn_exact (k : SegmentationKernel) (buf : SegmentArray)
    (hb : k._segments = some buf) (length : ℚ) (mat : Material) (id fwd bwd : Int) :
    k.writtenOn exactMachine length mat id fwd bwd = k.written length mat id fwd bwd := by
  rw [SegmentationKernel.writtenOn_eq exactMachine k buf hb,
    SegmentationKernel.written_eq k buf hb, numCutsOn_exact]
  congr 1
  simp only [lastRecordOn, lastRecord, remainderOn_exact]
  rfl

/-- Without rounding and with an unbounded `int`, `execute` on the machine is `execute` of
the exact definitions, for each of the three kernels. -/
theorem MOCKernel.executeOn_exact (k : MOCKernel) (length : ℚ) (mat : Material)
    (id fwd bwd : Int) :
    k.executeOn exactMachine length mat id fwd bwd = k.execute length mat id fwd bwd := by
  cases k with
  | volume v => rfl
  | counter c => rfl
  | segmentation sk => rfl

theorem CounterKernel.runOn_count (M : Machine) (segs : List segment) (k : CounterKernel) :
    (k.runOn M segs)._count
      = k._count + (segs.map (fun s => numCutsOn M s._length s._material k._max_tau)).sum := by
  induction segs generalizing k with
  | nil => simp [CounterKernel.runOn]
  | cons s ss ih =>
    show (CounterKernel.runOn M _ ss)._count = _
    rw [ih]
    simp only [CounterKernel.executeOn, List.map_cons, List.sum_cons]
    ring

theorem roundHalfEven_eval (y : ℚ) (f : Int) (hf1 : (f : ℚ) ≤ y) (hf2 : y < (f : ℚ) + 1) :
    roundHalfEven y
      = if y - f < 1 / 2 then f
        else if 1 / 2 < y - f then f + 1
        else if f % 2 = 0 then f else f + 1 := by
  have hfl : ⌊y⌋ = f := Int.floor_eq_iff.mpr ⟨hf1, hf2⟩
  unfold roundHalfEven
  rw [hfl]

theorem binade_eval (x : ℚ) (e : Int) (h1 : (2 : ℚ) ^ e ≤ |x|)
    (h2 : |x| < (2 : ℚ) ^ (e + 1)) : binade x = e := by
  have hpos : 0 < |x| := lt_of_lt_of_le (zpow_pos (by norm_num) e) h1
  have c : ((2 : ℕ) : ℚ) = 2 := by norm_num
  unfold binade
  apply le_antisymm
  · have := (Int.lt_zpow_iff_log_lt (b := 2) (by norm_num) hpos (x := e + 1)).mp
      (by rw [c]; exact h2)
    omega
  · exact (Int.zpow_le_iff_le_log (b := 2) (by norm_num) hpos).mp (by rw [c]; exact h1)

theorem roundDouble_eval (x : ℚ) (e n : Int) (h1 : (2 : ℚ) ^ e ≤ |x|)
    (h2 : |x| < (2 : ℚ) ^ (e + 1)) (hn : roundHalfEven (x / (2 : ℚ) ^ (e - 52)) = n) :
    roundDouble x = (n : ℚ) * (2 : ℚ) ^ (e - 52) := by
  unfold roundDouble
  rw [binade_eval x e h1 h2, hn]

theorem roundDouble_zero : roundDouble 0 = 0 := by
  unfold roundDouble roundHalfEven
  simp

/-! ## Evaluation on IEEE doubles -/

/-- IEEE rounding of `x`, from its exponent `e` and the floor `f` of `x / 2 ^ (e - 52)`. -/
theorem roundDouble_eval_floor (x : ℚ) (e f : Int) (h1 : (2 : ℚ) ^ e ≤ |x|)
    (h2 : |x| < (2 : ℚ) ^ (e + 1)) (hf1 : (f : ℚ) ≤ x / (2 : ℚ) ^ (e - 52))
    (hf2 : x / (2 : ℚ) ^ (e - 52) < (f : ℚ) + 1) :
    roundDouble x
      = ((if x / (2 : ℚ) ^ (e - 52) - f < 1 / 2 then f
          else if 1 / 2 < x / (2 : ℚ) ^ (e - 52) - f then f + 1
          else if f % 2 = 0 then f else f + 1 : Int) : ℚ) * (2 : ℚ) ^ (e - 52) :=
  roundDouble_eval x e _ h1 h2 (roundHalfEven_eval _ f hf1 hf2)

theorem maxSigmaT_tenth : maxSigmaT ⟨[tenth]⟩ = tenth := by
  norm_num [maxSigmaT, maxStep, tenth]

theorem maxSigmaT_three : maxSigmaT ⟨[3]⟩ = 3 := by
  norm_num [maxSigmaT, maxStep]

theorem roundDouble_one : roundDouble 1 = 1 := by
  rw [roundDouble_eval_floor 1 0 4503599627370496 (by norm_num) (by norm_num) (by norm_num)
    (by norm_num)]
  norm_num

theorem roundDouble_two : roundDouble 2 = 2 := by
  rw [roundDouble_eval_floor 2 1 4503599627370496 (by norm_num) (by norm_num) (by norm_num)
    (by norm_num)]
  norm_num

theorem roundDouble_three_tenth :
    roundDouble (3 * tenth) = 5404319552844596 / 18014398509481984 := by
  rw [roundDouble_eval_floor (3 * tenth) (-2) 5404319552844595
    (by norm_num [tenth, abs_of_pos]) (by norm_num [tenth, abs_of_pos])
    (by norm_num [tenth]) (by norm_num [tenth])]
  norm_num [tenth]

theorem roundDouble_three_tenth_div :
    roundDouble (5404319552844596 / 18014398509481984 / tenth)
      = 6755399441055745 / 2251799813685248 := by
  rw [roundDouble_eval_floor (5404319552844596 / 18014398509481984 / tenth) 1
    6755399441055744
    (by norm_num [tenth, abs_of_pos]) (by norm_num [tenth, abs_of_pos])
    (by norm_num [tenth]) (by norm_num [tenth])]
  norm_num [tenth]

theorem numCutsOn_double_three_tenth : numCutsOn doubleMachine 3 ⟨[tenth]⟩ tenth = 4 := by
  unfold numCutsOn
  simp only [doubleMachine, maxSigmaT_tenth, roundDouble_three_tenth,
    roundDouble_three_tenth_div]
  have hc : ⌈(6755399441055745 / 2251799813685248 : ℚ)⌉ = 4 := by
    rw [Int.ceil_eq_iff]
    norm_num
  rw [hc]
  decide


theorem remainderOn_two (M : Machine) (t l : ℚ) :
    remainderOn M t 2 l = M.roundP (M.roundP (l - t) - t) := rfl

theorem remainderOn_three (M : Machine) (t l : ℚ) :
    remainderOn M t 3 l = M.roundP (M.roundP (M.roundP (l - t) - t) - t) := rfl

theorem cutLengthOn_double_tenth : cutLengthOn doubleMachine tenth tenth = 1 := by
  have h : tenth / tenth = 1 := div_self (by norm_num [tenth])
  simp only [cutLengthOn, doubleMachine, h, roundDouble_one]

/-- On doubles, the segment of length 3 with cross-section 0.1 under `max_tau = 0.1` is
written as four records, of lengths 1, 1, 1 and 0. -/
theorem writtenOn_double_three_tenth (c : Int) (id fwd bwd : Int) :
    (SegmentationKernel.mk c tenth (some blankArray)).writtenOn doubleMachine 3 ⟨[tenth]⟩
        id fwd bwd
      = [⟨1, ⟨[tenth]⟩, id, -1, bwd⟩, ⟨1, ⟨[tenth]⟩, id, -1, -1⟩, ⟨1, ⟨[tenth]⟩, id, -1, -1⟩,
          ⟨0, ⟨[tenth]⟩, id, fwd, -1⟩] := by
  have h := SegmentationKernel.writtenOn_eq doubleMachine
    (SegmentationKernel.mk c tenth (some blankArray)) blankArray rfl 3 ⟨[tenth]⟩ id fwd bwd
  simp only [numCutsOn_double_three_tenth, maxSigmaT_tenth] at h
  rw [h]
  have h3 : ((4 : Int) - 1).toNat = 3 := by decide
  have hr : remainderOn doubleMachine 1 3 3 = 0 := by
    rw [remainderOn_three]
    simp only [doubleMachine]
    norm_num [roundDouble_one, roundDouble_two, roundDouble_zero]
  rw [h3]
  simp [List.range_succ, cutRecordOn, lastRecordOn, cutLengthOn_double_tenth, hr]


theorem roundHalfEven_intCast (f : Int) : roundHalfEven (f : ℚ) = f := by
  rw [roundHalfEven_eval (f : ℚ) f le_rfl (by linarith)]
  norm_num

/-- A value with at most 53 significant bits is left as it is. -/
theorem roundDouble_eq_self (x : ℚ) (e f : Int) (h1 : (2 : ℚ) ^ e ≤ |x|)
    (h2 : |x| < (2 : ℚ) ^ (e + 1)) (hf : x / (2 : ℚ) ^ (e - 52) = (f : ℚ)) :
    roundDouble x = x := by
  rw [roundDouble_eval x e f h1 h2 (by rw [hf]; exact roundHalfEven_intCast f), ← hf]
  exact div_mul_cancel₀ x (zpow_ne_zero _ (by norm_num))

theorem roundDouble_three : roundDouble 3 = 3 :=
  roundDouble_eq_self 3 1 6755399441055744 (by norm_num) (by norm_num) (by norm_num)

theorem numCutsOn_double_three_tenths :
    numCutsOn doubleMachine threeTenths ⟨[3]⟩ threeTenths = 3 := by
  have hp : roundDouble (threeTenths * 3) = 2026619832316723 / 2251799813685248 := by
    rw [roundDouble_eval_floor (threeTenths * 3) (-1) 8106479329266892
      (by norm_num [threeTenths, abs_of_pos]) (by norm_num [threeTenths, abs_of_pos])
      (by norm_num [threeTenths]) (by norm_num [threeTenths])]
    norm_num [threeTenths]
  have hq : roundDouble (2026619832316723 / 2251799813685248 / threeTenths) = 3 := by
    rw [roundDouble_eval_floor (2026619832316723 / 2251799813685248 / threeTenths) 1
      6755399441055743
      (by norm_num [threeTenths, abs_of_pos]) (by norm_num [threeTenths, abs_of_pos])
      (by norm_num [threeTenths]) (by norm_num [threeTenths])]
    norm_num [threeTenths]
  unfold numCutsOn
  simp only [doubleMachine, maxSigmaT_three, hp, hq]
  have hc : ⌈(3 : ℚ)⌉ = 3 := by
    rw [Int.ceil_eq_iff]
    norm_num
  rw [hc]
  decide

theorem cutLengthOn_double_three_tenths :
    cutLengthOn doubleMachine threeTenths 3 = 7205759403792793 / 72057594037927936 := by
  have h1 : roundDouble (threeTenths / 3) = 7205759403792793 / 72057594037927936 := by
    rw [roundDouble_eval_floor (threeTenths / 3) (-4) 7205759403792793
      (by norm_num [threeTenths, abs_of_pos]) (by norm_num [threeTenths, abs_of_pos])
      (by norm_num [threeTenths]) (by norm_num [threeTenths])]
    norm_num [threeTenths]
  have h2 : roundDouble (7205759403792793 / 72057594037927936)
      = 7205759403792793 / 72057594037927936 :=
    roundDouble_eq_self _ (-4) 7205759403792793 (by norm_num [abs_of_pos])
      (by norm_num [abs_of_pos]) (by norm_num)
  simp only [cutLengthOn, doubleMachine, h1, h2]

theorem remainderOn_double_three_tenths :
    remainderOn doubleMachine (7205759403792793 / 72057594037927936) 2 threeTenths
      = 7205759403792795 / 72057594037927936 := by
  have h1 : roundDouble (threeTenths - 7205759403792793 / 72057594037927936)
      = 3602879701896397 / 18014398509481984 := by
    rw [roundDouble_eval_floor (threeTenths - 7205759403792793 / 72057594037927936) (-3)
      7205759403792793
      (by norm_num [threeTenths, abs_of_pos]) (by norm_num [threeTenths, abs_of_pos])
      (by norm_num [threeTenths]) (by norm_num [threeTenths])]
    norm_num [threeTenths]
  have h2 : roundDouble (3602879701896397 / 18014398509481984
        - 7205759403792793 / 72057594037927936)
      = 7205759403792795 / 72057594037927936 := by
    rw [roundDouble_eq_self _ (-4) 7205759403792795 (by norm_num [abs_of_pos])
      (by norm_num [abs_of_pos]) (by norm_num)]
    norm_num
  rw [remainderOn_two]
  simp only [doubleMachine, h1, h2]

/-- On doubles, the segment of length 0.3 with cross-section 3 under `max_tau = 0.3` is
written as three records, the last one longer than the first two. -/
theorem writtenOn_double_three_tenths (c : Int) (id fwd bwd : Int) :
    (SegmentationKernel.mk c threeTenths (some blankArray)).writtenOn doubleMachine
        threeTenths ⟨[3]⟩ id fwd bwd
      = [⟨7205759403792793 / 72057594037927936, ⟨[3]⟩, id, -1, bwd⟩,
          ⟨7205759403792793 / 72057594037927936, ⟨[3]⟩, id, -1, -1⟩,
          ⟨7205759403792795 / 72057594037927936, ⟨[3]⟩, id, fwd, -1⟩] := by
  have h := SegmentationKernel.writtenOn_eq doubleMachine
    (SegmentationKernel.mk c threeTenths (some blankArray)) blankArray rfl threeTenths ⟨[3]⟩
    id fwd bwd
  simp only [numCutsOn_double_three_tenths, maxSigmaT_three] at h
  rw [h]
  have h2 : ((3 : Int) - 1).toNat = 2 := by decide
  rw [h2]
  simp [List.range_succ, cutRecordOn, lastRecordOn, cutLengthOn_double_three_tenths,
    remainderOn_double_three_tenths]

theorem numCutsOn_double_2e9 : numCutsOn doubleMachine 2000000000 unitMaterial 1 = 2000000000 := by
  have hp : roundDouble 2000000000 = 2000000000 :=
    roundDouble_eq_self _ 30 8388608000000000 (by norm_num) (by norm_num) (by norm_num)
  unfold numCutsOn
  simp only [doubleMachine, maxSigmaT_unitMaterial, mul_one, div_one, hp]
  have hc : ⌈(2000000000 : ℚ)⌉ = 2000000000 := by
    rw [Int.ceil_eq_iff]
    norm_num
  rw [hc]
  decide

theorem numCutsOn_double_3e9 : numCutsOn doubleMachine 3000000000 unitMaterial 1 = 1 := by
  have hp : roundDouble 3000000000 = 3000000000 :=
    roundDouble_eq_self _ 31 6291456000000000 (by norm_num) (by norm_num) (by norm_num)
  unfold numCutsOn
  simp only [doubleMachine, maxSigmaT_unitMaterial, mul_one, div_one, hp]
  have hc : ⌈(3000000000 : ℚ)⌉ = 3000000000 := by
    rw [Int.ceil_eq_iff]
    norm_num
  rw [hc]
  decide

theorem numCutsOn_double_three_one : numCutsOn doubleMachine 3 unitMaterial 1 = 3 := by
  unfold numCutsOn
  simp only [doubleMachine, maxSigmaT_unitMaterial, mul_one, div_one, roundDouble_three]
  have hc : ⌈(3 : ℚ)⌉ = 3 := by
    rw [Int.ceil_eq_iff]
    norm_num
  rw [hc]
  decide

theorem numCutsOn_double_three_small :
    numCutsOn doubleMachine 3 unitMaterial (1 / 1073741824) = 1 := by
  have hq : roundDouble (3 / (1 / 1073741824)) = 3221225472 := by
    rw [roundDouble_eq_self _ 31 6755399441055744 (by norm_num [abs_of_pos])
      (by norm_num [abs_of_pos]) (by norm_num)]
    norm_num
  unfold numCutsOn
  simp only [doubleMachine, maxSigmaT_unitMaterial, mul_one, roundDouble_three, hq]
  have hc : ⌈(3221225472 : ℚ)⌉ = 3221225472 := by
    rw [Int.ceil_eq_iff]
    norm_num
  rw [hc]
  decide

theorem numCutsOn_double_25_10 : numCutsOn doubleMachine 25 unitMaterial 10 = 3 := by
  have hp : roundDouble 25 = 25 :=
    roundDouble_eq_self _ 4 7036874417766400 (by norm_num) (by norm_num) (by norm_num)
  have hq : roundDouble (25 / 10) = 5 / 2 := by
    rw [roundDouble_eq_self _ 1 5629499534213120 (by norm_num [abs_of_pos])
      (by norm_num [abs_of_pos]) (by norm_num)]
    norm_num
  unfold numCutsOn
  simp only [doubleMachine, maxSigmaT_unitMaterial, mul_one, hp, hq]
  have hc : ⌈(5 / 2 : ℚ)⌉ = 3 := by
    rw [Int.ceil_eq_iff]
    norm_num
  rw [hc]
  decide

theorem roundDouble_ten : roundDouble 10 = 10 :=
  roundDouble_eq_self _ 3 5629499534213120 (by norm_num) (by norm_num) (by norm_num)

/-- On doubles, the segment of length 25 with cross-section 1 under `max_tau = 10` is
written as three records, of lengths 10, 10 and 5. -/
theorem writtenOn_double_25_10 (c : Int) (id fwd bwd : Int) :
    (SegmentationKernel.mk c 10 (some blankArray)).writtenOn doubleMachine 25 unitMaterial
        id fwd bwd
      = [⟨10, unitMaterial, id, -1, bwd⟩, ⟨10, unitMaterial, id, -1, -1⟩,
          ⟨5, unitMaterial, id, fwd, -1⟩] := by
  have h := SegmentationKernel.writtenOn_eq doubleMachine
    (SegmentationKernel.mk c 10 (some blankArray)) blankArray rfl 25 unitMaterial id fwd bwd
  simp only [numCutsOn_double_25_10, maxSigmaT_unitMaterial] at h
  rw [h]
  have h2 : ((3 : Int) - 1).toNat = 2 := by decide
  have hl : cutLengthOn doubleMachine 10 1 = 10 := by
    simp only [cutLengthOn, doubleMachine, div_one, roundDouble_ten]
  have h15 : roundDouble 15 = 15 :=
    roundDouble_eq_self _ 3 8444249301319680 (by norm_num) (by norm_num) (by norm_num)
  have h5 : roundDouble 5 = 5 :=
    roundDouble_eq_self _ 2 5629499534213120 (by norm_num) (by norm_num) (by norm_num)
  have hr : remainderOn doubleMachine 10 2 25 = 5 := by
    rw [remainderOn_two]
    simp only [doubleMachine]
    norm_num [h15, h5]
  rw [h2]
  simp [List.range_succ, cutRecordOn, lastRecordOn, hl, hr]

/-! ## The properties in exact arithmetic

On the exact definitions, without rounding and with an unbounded `int`. -/

/-- In exact arithmetic: from any prior state, `newTrack` followed by `execute` on every segment
of a finite sequence, each of positive length and with a positive largest per-group
cross-section `peak`, under a positive `max_tau`, leaves `getCount` equal to the sum over the
segments of `max(ceil(L * peak / max_tau), 1)`. -/
theorem counter_count_after_track (k : CounterKernel) (track : Track) (segs : List segment)
    (peak : segment → ℚ) (_hτ : 0 < k._max_tau)
    (hseg : ∀ s ∈ segs, 0 < s._length ∧ 0 < peak s ∧ IsLargestSigmaT s._material (peak s)) :
    ((k.newTrack track).run segs).getCount
      = (segs.map (fun s => max ⌈s._length * peak s / k._max_tau⌉ 1)).sum := by
  unfold CounterKernel.getCount
  rw [CounterKernel.run_count]
  simp only [CounterKernel.newTrack, zero_add]
  congr 1
  apply List.map_congr_left
  intro s hs
  obtain ⟨_, hp, hl⟩ := hseg s hs
  unfold numCuts
  rw [maxSigmaT_eq_of_largest _ _ hl hp]

/-- In exact arithmetic: one `execute` call of a segmentation kernel with a bound buffer, on a
segment of positive length with a positive largest cross-section and under a positive
`max_tau`, writes `num_cuts` records, and the length of each of them times the cross-section
of any energy group, and times the largest cross-section, is at most `max_tau`. -/
theorem segmentation_optical_length_le (k : SegmentationKernel) (buf : SegmentArray)
    (hb : k._segments = some buf) (length : ℚ) (mat : Material) (id fwd bwd : Int)
    (hL : 0 < length) (hτ : 0 < k._max_tau) (hσ : 0 < maxSigmaT mat) :
    (k.written length mat id fwd bwd).length = (numCuts length mat k._max_tau).toNat
      ∧ ∀ r ∈ k.written length mat id fwd bwd,
          (∀ s ∈ mat.sigma_t, r._length * s ≤ k._max_tau)
            ∧ r._length * maxSigmaT mat ≤ k._max_tau := by
  refine ⟨SegmentationKernel.written_length k buf hb length mat id fwd bwd, ?_⟩
  have key : ∀ len : ℚ, 0 ≤ len → len * maxSigmaT mat ≤ k._max_tau →
      (∀ s ∈ mat.sigma_t, len * s ≤ k._max_tau) ∧ len * maxSigmaT mat ≤ k._max_tau := by
    intro len h0 hle
    refine ⟨fun s hs => ?_, hle⟩
    exact le_trans (mul_le_mul_of_nonneg_left (maxSigmaT_ge mat s hs) h0) hle
  intro r hr
  rw [SegmentationKernel.written_eq k buf hb] at hr
  rcases List.mem_append.mp hr with hr | hr
  · obtain ⟨j, _, rfl⟩ := List.mem_map.mp hr
    apply key
    · exact (div_pos hτ hσ).le
    · show k._max_tau / maxSigmaT mat * maxSigmaT mat ≤ k._max_tau
      rw [div_mul_cancel₀ _ hσ.ne']
  · rw [List.mem_singleton] at hr
    subst hr
    apply key
    · exact (remainder_pos length mat k._max_tau hL hτ hσ).le
    · exact remainder_tau_le length mat k._max_tau hL hτ hσ

/-- In exact arithmetic: one `execute` call of a segmentation kernel with a bound buffer, on a
segment of positive length with a positive largest cross-section and under a positive
`max_tau`, writes `n = num_cuts` records: each of the first `n - 1` has length
`max_tau / max_sigma_t`, the last has length `L - (n - 1) * max_tau / max_sigma_t`, and all
of them carry the material and the region id of the segment. -/
theorem segmentation_record_contents (k : SegmentationKernel) (buf : SegmentArray)
    (hb : k._segments = some buf) (length : ℚ) (mat : Material) (id fwd bwd : Int)
    (_hL : 0 < length) (_hτ : 0 < k._max_tau) (_hσ : 0 < maxSigmaT mat) :
    (k.written length mat id fwd bwd).length = (numCuts length mat k._max_tau).toNat
      ∧ ∀ j : Nat, j < (numCuts length mat k._max_tau).toNat →
          ∃ r : segment, (k.written length mat id fwd bwd)[j]? = some r
            ∧ r._length
                = (if j + 1 < (numCuts length mat k._max_tau).toNat
                    then k._max_tau / maxSigmaT mat
                    else length - (((numCuts length mat k._max_tau : Int) : ℚ) - 1)
                          * k._max_tau / maxSigmaT mat)
            ∧ r._material = mat ∧ r._region_id = id := by
  refine ⟨SegmentationKernel.written_length k buf hb length mat id fwd bwd, ?_⟩
  intro j hj
  refine ⟨_, SegmentationKernel.written_getElem? k buf hb length mat id fwd bwd j hj, ?_⟩
  rw [numCuts_toNat] at hj ⊢
  by_cases h : j < (numCuts length mat k._max_tau - 1).toNat
  · rw [if_pos h, if_pos (by omega)]
    exact ⟨rfl, rfl, rfl⟩
  · rw [if_neg h, if_neg (by omega)]
    refine ⟨?_, rfl, rfl⟩
    simp only [lastRecord]
    rw [iters_cast, mul_div_assoc]

/-- In exact arithmetic: when `L * max_sigma_t / max_tau` is a positive integer `n` (with `L`,
`max_sigma_t` and `max_tau` positive), the number of cuts is `n`; a volume kernel, a counter
kernel and a segmentation kernel with a bound buffer add `n` to the count, and the
segmentation kernel with a bound buffer writes `n` records, all of length
`max_tau / max_sigma_t`; a segmentation kernel with no buffer bound keeps its count. -/
theorem exact_multiple_cuts (length : ℚ) (mat : Material) (max_tau : ℚ) (n : Int)
    (id fwd bwd : Int) (_hL : 0 < length) (hσ : 0 < maxSigmaT mat) (hτ : 0 < max_tau)
    (hn : 0 < n) (h : length * maxSigmaT mat / max_tau = (n : ℚ)) :
    numCuts length mat max_tau = n
      ∧ (∀ K : MOCKernel, K.max_tau = max_tau →
          (K.execute length mat id fwd bwd).getCount
            = if K.hasBuffer then K.getCount + n else K.getCount)
      ∧ (∀ (sk : SegmentationKernel) (buf : SegmentArray), sk._segments = some buf →
          sk._max_tau = max_tau →
            (sk.written length mat id fwd bwd).length = n.toNat
              ∧ ∀ r ∈ sk.written length mat id fwd bwd,
                  r._length = max_tau / maxSigmaT mat) := by
  have hnum := numCuts_of_int_ratio length mat max_tau n hn h
  refine ⟨hnum, ?_, ?_⟩
  · intro K hK
    rw [MOCKernel.getCount_execute, hK, hnum]
  · intro sk buf hb hsk
    refine ⟨by rw [SegmentationKernel.written_length sk buf hb, hsk, hnum], ?_⟩
    intro r hr
    rw [SegmentationKernel.written_eq sk buf hb, hsk] at hr
    rcases List.mem_append.mp hr with hr | hr
    · obtain ⟨j, _, rfl⟩ := List.mem_map.mp hr
      rfl
    · rw [List.mem_singleton] at hr
      subst hr
      simp only [lastRecord]
      rw [iters_cast, hnum]
      have h2 : length * maxSigmaT mat = (n : ℚ) * max_tau := (div_eq_iff hτ.ne').mp h
      have h3 : length = (n : ℚ) * max_tau / maxSigmaT mat := eq_div_of_mul_eq hσ.ne' h2
      rw [h3]
      ring

/-- In exact arithmetic: one `execute` call of a segmentation kernel with a bound buffer, on a
segment of positive length with a positive largest cross-section and under a positive
`max_tau`, writes `num_cuts` records, each of positive length; the remainder
`L - (num_cuts - 1) * max_tau / max_sigma_t` is positive. -/
theorem segmentation_lengths_pos (k : SegmentationKernel) (buf : SegmentArray)
    (hb : k._segments = some buf) (length : ℚ) (mat : Material) (id fwd bwd : Int)
    (hL : 0 < length) (hτ : 0 < k._max_tau) (hσ : 0 < maxSigmaT mat) :
    (k.written length mat id fwd bwd).length = (numCuts length mat k._max_tau).toNat
      ∧ (∀ r ∈ k.written length mat id fwd bwd, 0 < r._length)
      ∧ 0 < length - (((numCuts length mat k._max_tau : Int) : ℚ) - 1)
              * k._max_tau / maxSigmaT mat := by
  have hrem := remainder_pos length mat k._max_tau hL hτ hσ
  refine ⟨SegmentationKernel.written_length k buf hb length mat id fwd bwd, ?_, ?_⟩
  · intro r hr
    rw [SegmentationKernel.written_eq k buf hb] at hr
    rcases List.mem_append.mp hr with hr | hr
    · obtain ⟨j, _, rfl⟩ := List.mem_map.mp hr
      exact div_pos hτ hσ
    · rw [List.mem_singleton] at hr
      subst hr
      exact hrem
  · rw [iters_cast, ← mul_div_assoc] at hrem
    exact hrem

/-- In exact arithmetic: the number of cuts is at least 1; for a fixed material and a positive
`max_tau` it does not decrease when the length grows; for a fixed material and a length that
is not negative it does not increase when a positive `max_tau` grows, so a counter kernel
given the larger limit by `setMaxOpticalLength` adds no more to its count. -/
theorem numCuts_monotone (mat : Material) :
    (∀ length max_tau : ℚ, 1 ≤ numCuts length mat max_tau)
      ∧ (∀ max_tau l1 l2 : ℚ, 0 < max_tau → l1 ≤ l2 →
          numCuts l1 mat max_tau ≤ numCuts l2 mat max_tau)
      ∧ (∀ length t1 t2 : ℚ, 0 ≤ length → 0 < t1 → t1 ≤ t2 →
          numCuts length mat t2 ≤ numCuts length mat t1)
      ∧ (∀ (k : CounterKernel) (length t1 t2 : ℚ) (id fwd bwd : Int),
          0 ≤ length → 0 < t1 → t1 ≤ t2 →
            ((k.setMaxOpticalLength t2).execute length mat id fwd bwd).getCount
              ≤ ((k.setMaxOpticalLength t1).execute length mat id fwd bwd).getCount) := by
  refine ⟨fun l t => numCuts_ge_one l mat t, ?_, ?_, ?_⟩
  · intro t l1 l2 ht h
    exact numCuts_mono_length mat t ht l1 l2 h
  · intro l t1 t2 hl h1 h
    exact numCuts_anti_tau mat l hl t1 t2 h1 h
  · intro k l t1 t2 id fwd bwd hl h1 h
    show k._count + numCuts l mat t2 ≤ k._count + numCuts l mat t1
    have := numCuts_anti_tau mat l hl t1 t2 h1 h
    omega

/-! ## Claims -/

/-- C1. On doubles the count is not the sum the claim gives. A counter kernel with
`max_tau = 0.1`, reset by `newTrack` and run over the one segment of length 3 whose material
has the single cross-section 0.1 (positive length, positive largest cross-section, positive
`max_tau`), ends at count 4, while `max(ceil(L * s / max_tau), 1)` is 3 for this segment. -/
theorem counter_count_on_doubles :
    (0 : ℚ) < 3 ∧ 0 < tenth ∧ IsLargestSigmaT ⟨[tenth]⟩ tenth
      ∧ (((CounterKernel.mk 7 tenth).newTrack (Track.Track2D 0)).runOn doubleMachine
            [⟨3, ⟨[tenth]⟩, 0, -1, -1⟩]).getCount = 4
      ∧ ([(⟨3, ⟨[tenth]⟩, 0, -1, -1⟩ : segment)].map
            (fun s => max ⌈s._length * tenth / tenth⌉ 1)).sum = 3 := by
  refine ⟨by norm_num, by norm_num [tenth], ⟨by simp, by simp⟩, ?_, ?_⟩
  · unfold CounterKernel.getCount
    rw [CounterKernel.runOn_count]
    simp only [CounterKernel.newTrack, List.map_cons, List.map_nil, List.sum_cons,
      List.sum_nil, numCutsOn_double_three_tenth]
    decide
  · have h : (3 : ℚ) * tenth / tenth = 3 := by norm_num [tenth]
    have hc : ⌈(3 : ℚ)⌉ = 3 := by
      rw [Int.ceil_eq_iff]
      norm_num
    simp only [List.map_cons, List.map_nil, List.sum_cons, List.sum_nil, h, hc]
    decide

/-- C2. One `execute` call of a segmentation kernel with a bound buffer, on a segment of
positive length with a positive largest cross-section and under a positive `max_tau`,
writes `num_cuts` records whose lengths sum to exactly the length of the segment. -/
theorem segmentation_lengths_sum (k : SegmentationKernel) (buf : SegmentArray)
    (hb : k._segments = some buf) (length : ℚ) (mat : Material) (id fwd bwd : Int)
    (_hL : 0 < length) (_hτ : 0 < k._max_tau) (_hσ : 0 < maxSigmaT mat) :
    (k.written length mat id fwd bwd).length = (numCuts length mat k._max_tau).toNat
      ∧ ((k.written length mat id fwd bwd).map (fun r => r._length)).sum = length := by
  refine ⟨SegmentationKernel.written_length k buf hb length mat id fwd bwd, ?_⟩
  rw [SegmentationKernel.written_eq k buf hb, List.map_append, List.sum_append,
    sum_cutRecord_length]
  simp [lastRecord]

/-- Witness of C2: length 25 under `max_tau = 10` and cross-section 1. -/
theorem segmentation_lengths_sum_witness :
    ((SegmentationKernel.mk 0 10 (some blankArray)).written 25 unitMaterial 0 4 5).length
        = (numCuts 25 unitMaterial 10).toNat
      ∧ (((SegmentationKernel.mk 0 10 (some blankArray)).written 25 unitMaterial 0 4 5).map
          (fun r => r._length)).sum = 25 :=
  segmentation_lengths_sum (SegmentationKernel.mk 0 10 (some blankArray)) blankArray rfl
    25 unitMaterial 0 4 5 (by decide) (by decide) (by decide)

/-- C3, as the code has it. One `execute` call of a segmentation kernel with a bound buffer
writes `num_cuts` records; the first has the original backward-surface id and every other
one has `-1`; the last has the original forward-surface id and every other one has `-1`;
a single record carries both. When the original backward id is not `-1` exactly one written
record has it, and likewise for the forward id. -/
theorem segmentation_surface_ids (k : SegmentationKernel) (buf : SegmentArray)
    (hb : k._segments = some buf) (length : ℚ) (mat : Material) (id fwd bwd : Int) :
    (k.written length mat id fwd bwd).length = (numCuts length mat k._max_tau).toNat
      ∧ (∀ j : Nat, j < (numCuts length mat k._max_tau).toNat →
          ((k.written length mat id fwd bwd)[j]?).map (fun r => r._cmfd_surface_bwd)
            = some (if j = 0 then bwd else -1))
      ∧ (∀ j : Nat, j < (numCuts length mat k._max_tau).toNat →
          ((k.written length mat id fwd bwd)[j]?).map (fun r => r._cmfd_surface_fwd)
            = some (if j + 1 = (numCuts length mat k._max_tau).toNat then fwd else -1))
      ∧ (numCuts length mat k._max_tau = 1 →
          k.written length mat id fwd bwd = [⟨length, mat, id, fwd, bwd⟩])
      ∧ (bwd ≠ -1 → countBwd bwd (k.written length mat id fwd bwd) = 1)
      ∧ (fwd ≠ -1 → countFwd fwd (k.written length mat id fwd bwd) = 1) := by
  refine ⟨SegmentationKernel.written_length k buf hb length mat id fwd bwd, ?_, ?_, ?_, ?_, ?_⟩
  · intro j hj
    rw [SegmentationKernel.written_getElem? k buf hb length mat id fwd bwd j hj, Option.map_some']
    by_cases h : j < (numCuts length mat k._max_tau - 1).toNat
    · rw [if_pos h]
      rfl
    · have hjm : (numCuts length mat k._max_tau - 1).toNat = j := by
        rw [numCuts_toNat] at hj
        omega
      rw [if_neg h, hjm]
      rfl
  · intro j hj
    rw [SegmentationKernel.written_getElem? k buf hb length mat id fwd bwd j hj, Option.map_some']
    rw [numCuts_toNat] at hj ⊢
    by_cases h : j < (numCuts length mat k._max_tau - 1).toNat
    · rw [if_pos h, if_neg (by omega)]
      rfl
    · rw [if_neg h, if_pos (by omega)]
      rfl
  · intro h1
    rw [SegmentationKernel.written_eq k buf hb, h1]
    simp [lastRecord]
  · intro h
    rw [SegmentationKernel.written_eq k buf hb]
    exact countBwd_written _ _ _ _ _ _ _ _ h
  · intro h
    rw [SegmentationKernel.written_eq k buf hb]
    exact countFwd_written _ _ _ _ _ _ _ _ h

/-- Witness of C3: length 25 under `max_tau = 10`, surface ids 4 (forward) and 5
(backward). -/
theorem segmentation_surface_ids_witness :
    countBwd 5 ((SegmentationKernel.mk 0 10 (some blankArray)).written 25 unitMaterial 0 4 5)
        = 1
      ∧ countFwd 4
          ((SegmentationKernel.mk 0 10 (some blankArray)).written 25 unitMaterial 0 4 5) = 1 :=
  have h := segmentation_surface_ids (SegmentationKernel.mk 0 10 (some blankArray)) blankArray
    rfl 25 unitMaterial 0 4 5
  ⟨h.2.2.2.2.1 (by decide), h.2.2.2.2.2 (by decide)⟩

/-- C3 as stated fails when an original surface id is the sentinel `-1`: a segment of
length 25 with both ids `-1`, under `max_tau = 10` and cross-section 1, is written as three
records, and all three have the original backward id and the original forward id. -/
theorem segmentation_surface_ids_sentinel :
    ((SegmentationKernel.mk 0 10 (some blankArray)).written 25 unitMaterial 0 (-1) (-1)).length
        = 3
      ∧ countBwd (-1)
          ((SegmentationKernel.mk 0 10 (some blankArray)).written 25 unitMaterial 0 (-1) (-1))
        = 3
      ∧ countFwd (-1)
          ((SegmentationKernel.mk 0 10 (some blankArray)).written 25 unitMaterial 0 (-1) (-1))
        = 3 := by
  have h := SegmentationKernel.written_eq (SegmentationKernel.mk 0 10 (some blankArray))
    blankArray rfl 25 unitMaterial 0 (-1) (-1)
  simp only [numCuts_25_10] at h
  rw [h]
  decide

/-- C4. On doubles a written record can exceed `max_tau`. A segmentation kernel with a bound
buffer and `max_tau = 0.3`, given the segment of length 0.3 whose material has the single
cross-section 3 (positive length, positive largest cross-section, positive `max_tau`),
writes three records, and the length of the last one times the cross-section is above
`max_tau`. -/
theorem segmentation_optical_length_on_doubles :
    0 < threeTenths ∧ 0 < maxSigmaT ⟨[3]⟩
      ∧ ((SegmentationKernel.mk 0 threeTenths (some blankArray)).writtenOn doubleMachine
            threeTenths ⟨[3]⟩ 0 4 5).map (fun r => r._length)
          = [7205759403792793 / 72057594037927936, 7205759403792793 / 72057594037927936,
              7205759403792795 / 72057594037927936]
      ∧ ∃ r ∈ (SegmentationKernel.mk 0 threeTenths (some blankArray)).writtenOn doubleMachine
            threeTenths ⟨[3]⟩ 0 4 5,
          ∃ s ∈ (⟨[3]⟩ : Material).sigma_t, threeTenths < r._length * s := by
  refine ⟨by norm_num [threeTenths], by rw [maxSigmaT_three]; norm_num, ?_, ?_⟩
  · rw [writtenOn_double_three_tenths]
    rfl
  · rw [writtenOn_double_three_tenths]
    refine ⟨⟨7205759403792795 / 72057594037927936, ⟨[3]⟩, 0, 4, -1⟩, by simp, 3, by simp, ?_⟩
    norm_num [threeTenths]

/-- C5. A counter kernel and a segmentation kernel with a bound buffer that share
`max_tau`, both reset with `newTrack` and run over the same finite sequence of segments,
reach the same count. -/
theorem counter_eq_segmentation_count (ck : CounterKernel) (sk : SegmentationKernel)
    (buf : SegmentArray) (track : Track) (segs : List segment)
    (hb : sk._segments = some buf) (hτ : ck._max_tau = sk._max_tau) :
    ((ck.newTrack track).run segs).getCount = ((sk.newTrack track).run segs).getCount := by
  obtain ⟨buf1, hr, _⟩ := SegmentationKernel.run_stores segs (sk.newTrack track) buf hb
  unfold CounterKernel.getCount SegmentationKernel.getCount
  rw [hr, CounterKernel.run_count]
  simp only [CounterKernel.newTrack, SegmentationKernel.newTrack, hτ]

/-- Witness of C5: two segments under `max_tau = 10`. -/
theorem counter_eq_segmentation_count_witness :
    (((CounterKernel.mk 7 10).newTrack (Track.Track2D 0)).run
        [⟨25, unitMaterial, 0, -1, -1⟩, ⟨3, unitMaterial, 1, -1, -1⟩]).getCount
      = (((SegmentationKernel.mk 2 10 (some blankArray)).newTrack (Track.Track2D 0)).run
        [⟨25, unitMaterial, 0, -1, -1⟩, ⟨3, unitMaterial, 1, -1, -1⟩]).getCount :=
  counter_eq_segmentation_count (CounterKernel.mk 7 10)
    (SegmentationKernel.mk 2 10 (some blankArray)) blankArray (Track.Track2D 0)
    [⟨25, unitMaterial, 0, -1, -1⟩, ⟨3, unitMaterial, 1, -1, -1⟩] rfl rfl

/-- C6. Let `N` be the count a counter kernel reaches over a sequence of segments after
`newTrack`. A segmentation kernel with a bound buffer and the same `max_tau`, reset with
`newTrack` and run over the same sequence, stores at the indices `0, 1, ..., N - 1` in this
order and nowhere else: every index stored to lies in `[0, N)`, and every index of `[0, N)`
is stored to exactly once. -/
theorem segmentation_stores_within_count (ck : CounterKernel) (sk : SegmentationKernel)
    (buf : SegmentArray) (track : Track) (segs : List segment)
    (hb : sk._segments = some buf) (hτ : ck._max_tau = sk._max_tau) :
    ∃ (buf1 : SegmentArray) (ws : List Int),
      ((sk.newTrack track).run segs)._segments = some buf1
        ∧ buf1.stores = buf.stores ++ ws
        ∧ ws = (List.range ((ck.newTrack track).run segs).getCount.toNat).map
            (fun (j : Nat) => (j : Int))
        ∧ (∀ i ∈ ws, 0 ≤ i ∧ i < ((ck.newTrack track).run segs).getCount)
        ∧ (∀ i : Int, 0 ≤ i → i < ((ck.newTrack track).run segs).getCount →
            ws.count i = 1) := by
  obtain ⟨buf1, hr, hs⟩ := SegmentationKernel.run_stores segs (sk.newTrack track) buf hb
  have hN : ((ck.newTrack track).run segs).getCount
      = (segs.map (fun s => numCuts s._length s._material sk._max_tau)).sum := by
    unfold CounterKernel.getCount
    rw [CounterKernel.run_count]
    simp only [CounterKernel.newTrack, hτ, zero_add]
  have h0 := sum_numCuts_nonneg segs sk._max_tau
  refine ⟨buf1, _, by rw [hr], hs, ?_, ?_, ?_⟩
  · rw [hN]
    simp only [SegmentationKernel.newTrack, zero_add]
  · intro i hi
    obtain ⟨j, hj, rfl⟩ := List.mem_map.mp hi
    have hj2 := List.mem_range.mp hj
    simp only [SegmentationKernel.newTrack, zero_add] at hj2 ⊢
    rw [hN]
    omega
  · intro i hi0 hiN
    rw [hN] at hiN
    simp only [SegmentationKernel.newTrack, zero_add]
    apply List.count_eq_one_of_mem
    · exact List.Nodup.map (fun a b h => by exact_mod_cast h) (List.nodup_range _)
    · exact List.mem_map.mpr ⟨i.toNat, List.mem_range.mpr (by omega), by omega⟩

/-- Witness of C6: two segments under `max_tau = 10`, into a fresh array. -/
theorem segmentation_stores_within_count_witness :
    ∃ (buf1 : SegmentArray) (ws : List Int),
      (((SegmentationKernel.mk 2 10 (some blankArray)).newTrack (Track.Track2D 0)).run
          [⟨25, unitMaterial, 0, -1, -1⟩, ⟨3, unitMaterial, 1, -1, -1⟩])._segments
          = some buf1
        ∧ buf1.stores = blankArray.stores ++ ws
        ∧ ws = (List.range (((CounterKernel.mk 7 10).newTrack (Track.Track2D 0)).run
            [⟨25, unitMaterial, 0, -1, -1⟩,
              ⟨3, unitMaterial, 1, -1, -1⟩]).getCount.toNat).map
            (fun (j : Nat) => (j : Int))
        ∧ (∀ i ∈ ws, 0 ≤ i ∧ i < (((CounterKernel.mk 7 10).newTrack (Track.Track2D 0)).run
            [⟨25, unitMaterial, 0, -1, -1⟩, ⟨3, unitMaterial, 1, -1, -1⟩]).getCount)
        ∧ (∀ i : Int, 0 ≤ i → i < (((CounterKernel.mk 7 10).newTrack (Track.Track2D 0)).run
            [⟨25, unitMaterial, 0, -1, -1⟩, ⟨3, unitMaterial, 1, -1, -1⟩]).getCount →
            ws.count i = 1) :=
  segmentation_stores_within_count (CounterKernel.mk 7 10)
    (SegmentationKernel.mk 2 10 (some blankArray)) blankArray (Track.Track2D 0)
    [⟨25, unitMaterial, 0, -1, -1⟩, ⟨3, unitMaterial, 1, -1, -1⟩] rfl rfl

/-- C7. With no buffer bound (`_segments` is `NULL`), `SegmentationKernel::execute` returns
the kernel as it was, whatever the arguments: nothing is stored, and the count and
`max_tau` keep their values. -/
theorem segmentation_unbound_noop (k : SegmentationKernel) (h : k._segments = none)
    (length : ℚ) (mat : Material) (id fwd bwd : Int) :
    k.execute length mat id fwd bwd = k
      ∧ (k.execute length mat id fwd bwd)._count = k._count
      ∧ (k.execute length mat id fwd bwd)._max_tau = k._max_tau
      ∧ (k.execute length mat id fwd bwd)._segments = none := by
  have e : k.execute length mat id fwd bwd = k := by
    unfold SegmentationKernel.execute
    rw [h]
  rw [e]
  exact ⟨rfl, rfl, rfl, h⟩

/-- Witness of C7: an unbound kernel holding count 5. -/
theorem segmentation_unbound_noop_witness :
    (SegmentationKernel.mk 5 10 none).execute 25 unitMaterial 0 4 5
        = SegmentationKernel.mk 5 10 none
      ∧ ((SegmentationKernel.mk 5 10 none).execute 25 unitMaterial 0 4 5)._count = 5
      ∧ ((SegmentationKernel.mk 5 10 none).execute 25 unitMaterial 0 4 5)._max_tau = 10
      ∧ ((SegmentationKernel.mk 5 10 none).execute 25 unitMaterial 0 4 5)._segments = none :=
  segmentation_unbound_noop (SegmentationKernel.mk 5 10 none) rfl 25 unitMaterial 0 4 5

/-- C8, as the code has it. On every machine, one `execute` call increases the count by the
`num_cuts` it computes for a volume kernel, a counter kernel and a segmentation kernel with
a bound buffer; a segmentation kernel with no buffer bound keeps its count. -/
theorem execute_count_on (M : Machine) (k : MOCKernel) (length : ℚ) (mat : Material)
    (id fwd bwd : Int) :
    (k.executeOn M length mat id fwd bwd).getCount
      = if k.hasBuffer then k.getCount + numCutsOn M length mat k.max_tau
        else k.getCount := by
  cases k with
  | volume v => rfl
  | counter c => rfl
  | segmentation sk =>
    cases hb : sk._segments with
    | none =>
      have e : sk.executeOn M length mat id fwd bwd = sk := by
        unfold SegmentationKernel.executeOn
        rw [hb]
      simp [MOCKernel.executeOn, MOCKernel.getCount, MOCKernel.hasBuffer, hb, e]
    | some buf =>
      simp [MOCKernel.executeOn, MOCKernel.getCount, MOCKernel.hasBuffer, MOCKernel.max_tau,
        hb, SegmentationKernel.executeOn_some M sk buf hb]

/-- C8 as stated fails for a segmentation kernel with no buffer bound: on a segment with
`num_cuts = 3` the count stays 0. -/
theorem execute_count_unbound :
    numCuts 25 unitMaterial (MOCKernel.segmentation ⟨0, 10, none⟩).max_tau = 3
      ∧ ((MOCKernel.segmentation ⟨0, 10, none⟩).execute 25 unitMaterial 0 (-1) (-1)).getCount
          = 0
      ∧ ((MOCKernel.segmentation ⟨0, 10, none⟩).execute 25 unitMaterial 0 (-1) (-1)).getCount
          ≠ (MOCKernel.segmentation ⟨0, 10, none⟩).getCount
              + numCuts 25 unitMaterial (MOCKernel.segmentation ⟨0, 10, none⟩).max_tau := by
  have h3 : numCuts 25 unitMaterial (MOCKernel.segmentation ⟨0, 10, none⟩).max_tau = 3 :=
    numCuts_25_10
  refine ⟨h3, rfl, ?_⟩
  rw [h3]
  decide

/-- C11. Construction of a volume kernel fails exactly when the track generator has no FSR
lock array; every kernel that construction yields comes from a track generator with a lock
array; and with a lock array construction succeeds with count 0 and weight 0. -/
theorem volume_kernel_construction (tg : TrackGenerator) (row_num : Int) :
    ((∃ msg : String, VolumeKernel.VolumeKernel tg row_num = Except.error msg)
        ↔ tg.getFSRLocks = none)
      ∧ (∀ k : VolumeKernel, VolumeKernel.VolumeKernel tg row_num = Except.ok k →
          tg.getFSRLocks ≠ none)
      ∧ (tg.getFSRLocks ≠ none →
          ∃ k : VolumeKernel, VolumeKernel.VolumeKernel tg row_num = Except.ok k
            ∧ k._count = 0 ∧ k._weight = 0
            ∧ k._max_tau = tg.retrieveMaxOpticalLength) := by
  cases h : tg.getFSRLocks with
  | none =>
    have e : ∃ msg : String, VolumeKernel.VolumeKernel tg row_num = Except.error msg := by
      unfold VolumeKernel.VolumeKernel
      rw [h]
      exact ⟨_, rfl⟩
    refine ⟨⟨fun _ => rfl, fun _ => e⟩, ?_, fun hne => absurd rfl hne⟩
    intro k hk
    obtain ⟨msg, hm⟩ := e
    rw [hm] at hk
    cases hk
  | some locks =>
    have e : VolumeKernel.VolumeKernel tg row_num
        = Except.ok
            { _count := 0
              _max_tau := tg.retrieveMaxOpticalLength
              _FSR_volumes := tg.getFSRVolumesBuffer
              _quadrature := tg.getQuadrature
              _weight := 0 } := by
      unfold VolumeKernel.VolumeKernel
      rw [h]
    refine ⟨⟨?_, ?_⟩, ?_, ?_⟩
    · rintro ⟨msg, hm⟩
      rw [e] at hm
      cases hm
    · intro hn
      cases hn
    · intro _ _ hn
      cases hn
    · intro _
      exact ⟨_, e, rfl, rfl, rfl⟩

/-- C13, as the code has it. On every machine, one `execute` call of a segmentation kernel
with a bound buffer, on a segment of positive length with a positive largest cross-section
and under a positive `max_tau`, writes `n = num_cuts` records: each of the first `n - 1`
has the length computed as `max_tau / max_sigma_t`, the last has the length left after
`n - 1` subtractions of that length from `L`, and all of them carry the material and the
region id of the segment. -/
theorem segmentation_record_contents_on (M : Machine) (k : SegmentationKernel)
    (buf : SegmentArray) (hb : k._segments = some buf) (length : ℚ) (mat : Material)
    (id fwd bwd : Int) (_hL : 0 < length) (_hτ : 0 < k._max_tau) (_hσ : 0 < maxSigmaT mat) :
    (k.writtenOn M length mat id fwd bwd).length = (numCutsOn M length mat k._max_tau).toNat
      ∧ ∀ j : Nat, j < (numCutsOn M length mat k._max_tau).toNat →
          ∃ r : segment, (k.writtenOn M length mat id fwd bwd)[j]? = some r
            ∧ r._length
                = (if j + 1 < (numCutsOn M length mat k._max_tau).toNat
                    then cutLengthOn M k._max_tau (maxSigmaT mat)
                    else remainderOn M (cutLengthOn M k._max_tau (maxSigmaT mat))
                          (numCutsOn M length mat k._max_tau - 1).toNat length)
            ∧ r._material = mat ∧ r._region_id = id := by
  refine ⟨SegmentationKernel.writtenOn_length M k buf hb length mat id fwd bwd, ?_⟩
  intro j hj
  refine ⟨_, SegmentationKernel.writtenOn_getElem? M k buf hb length mat id fwd bwd j hj, ?_⟩
  rw [numCutsOn_toNat] at hj ⊢
  by_cases h : j < (numCutsOn M length mat k._max_tau - 1).toNat
  · rw [if_pos h, if_pos (by omega)]
    exact ⟨rfl, rfl, rfl⟩
  · rw [if_neg h, if_neg (by omega)]
    exact ⟨rfl, rfl, rfl⟩

/-- Witness of C13: on doubles, length 25 under `max_tau = 10` and cross-section 1 gives the
lengths 10, 10, 5. -/
theorem segmentation_record_contents_on_witness :
    (((SegmentationKernel.mk 0 10 (some blankArray)).writtenOn doubleMachine 25 unitMaterial
          0 4 5).length
        = (numCutsOn doubleMachine 25 unitMaterial 10).toNat
      ∧ ∀ j : Nat, j < (numCutsOn doubleMachine 25 unitMaterial 10).toNat →
          ∃ r : segment,
            ((SegmentationKernel.mk 0 10 (some blankArray)).writtenOn doubleMachine 25
                unitMaterial 0 4 5)[j]? = some r
            ∧ r._length
                = (if j + 1 < (numCutsOn doubleMachine 25 unitMaterial 10).toNat
                    then cutLengthOn doubleMachine 10 (maxSigmaT unitMaterial)
                    else remainderOn doubleMachine
                          (cutLengthOn doubleMachine 10 (maxSigmaT unitMaterial))
                          (numCutsOn doubleMachine 25 unitMaterial 10 - 1).toNat 25)
            ∧ r._material = unitMaterial ∧ r._region_id = 0)
      ∧ ((SegmentationKernel.mk 0 10 (some blankArray)).writtenOn doubleMachine 25
            unitMaterial 0 4 5).map (fun r => r._length) = [10, 10, 5] :=
  ⟨segmentation_record_contents_on doubleMachine (SegmentationKernel.mk 0 10 (some blankArray))
      blankArray rfl 25 unitMaterial 0 4 5 (by decide) (by decide) (by decide),
    by
      rw [writtenOn_double_25_10]
      rfl⟩

/-- C13 as stated fails on doubles. A segmentation kernel with a bound buffer and
`max_tau = 0.3`, given the segment of length 0.3 whose material has the single
cross-section 3, computes three cuts; the first two records do not have the length
`max_tau / max_sigma_t` and the last does not have the length
`L - (n - 1) * max_tau / max_sigma_t`, nor `L` less `n - 1` times the stored cut length. -/
theorem segmentation_record_contents_on_doubles :
    numCutsOn doubleMachine threeTenths ⟨[3]⟩ threeTenths = 3
      ∧ ((SegmentationKernel.mk 0 threeTenths (some blankArray)).writtenOn doubleMachine
            threeTenths ⟨[3]⟩ 0 4 5).map (fun r => r._length)
          = [7205759403792793 / 72057594037927936, 7205759403792793 / 72057594037927936,
              7205759403792795 / 72057594037927936]
      ∧ (7205759403792793 / 72057594037927936 : ℚ) ≠ threeTenths / 3
      ∧ (7205759403792795 / 72057594037927936 : ℚ)
          ≠ threeTenths - (3 - 1) * threeTenths / 3
      ∧ (7205759403792795 / 72057594037927936 : ℚ)
          ≠ threeTenths - (3 - 1) * (7205759403792793 / 72057594037927936) := by
  refine ⟨numCutsOn_double_three_tenths, ?_, by norm_num [threeTenths],
    by norm_num [threeTenths], by norm_num [threeTenths]⟩
  rw [writtenOn_double_three_tenths]
  rfl

/-- C14. One `execute` call of a segmentation kernel with a bound buffer and count `c`
stores to the indices `c, c + 1, ..., c + num_cuts - 1` in this order and to no other;
the records below `c` and from `c + num_cuts` on stay as they were; the record at `c`, the
lowest index of the range, has the backward-surface id of the segment and the other
records of the range have `-1`; and over a run, every index stored to for an earlier
segment is below every index stored to for a later one. -/
theorem segmentation_store_order (k : SegmentationKernel) (buf : SegmentArray)
    (hb : k._segments = some buf) (length : ℚ) (mat : Material) (id fwd bwd : Int) :
    k.storedBy length mat id fwd bwd
        = (List.range (numCuts length mat k._max_tau).toNat).map
            (fun (j : Nat) => k._count + (j : Int))
      ∧ (∃ buf1 : SegmentArray,
          (k.execute length mat id fwd bwd)._segments = some buf1
            ∧ (∀ j : Int, j < k._count ∨ k._count + numCuts length mat k._max_tau ≤ j →
                buf1.cell j = buf.cell j)
            ∧ (buf1.cell k._count)._cmfd_surface_bwd = bwd
            ∧ (∀ j : Int, k._count < j → j < k._count + numCuts length mat k._max_tau →
                (buf1.cell j)._cmfd_surface_bwd = -1))
      ∧ (∀ (pre : List segment) (s : segment) (mid : List segment) (t : segment),
          ∀ i ∈ (k.run pre).storedBy s._length s._material s._region_id s._cmfd_surface_fwd
              s._cmfd_surface_bwd,
            ∀ j ∈ (k.run (pre ++ s :: mid)).storedBy t._length t._material t._region_id
                t._cmfd_surface_fwd t._cmfd_surface_bwd,
              i < j) := by
  have h1 := numCuts_ge_one length mat k._max_tau
  refine ⟨SegmentationKernel.storedBy_eq k buf hb length mat id fwd bwd, ?_,
    SegmentationKernel.storedBy_lt k buf hb⟩
  obtain ⟨buf1, he, hout, hin⟩ :=
    SegmentationKernel.execute_cells k buf hb length mat id fwd bwd
  refine ⟨buf1, he, hout, ?_, ?_⟩
  · have h0 := hin 0 (by omega)
    simp only [Nat.cast_zero, add_zero] at h0
    rw [h0]
    by_cases h : 0 < (numCuts length mat k._max_tau - 1).toNat
    · rw [if_pos h]
      rfl
    · rw [if_neg h]
      have hz : (numCuts length mat k._max_tau - 1).toNat = 0 := by omega
      show (if (numCuts length mat k._max_tau - 1).toNat = 0 then bwd else -1) = bwd
      rw [if_pos hz]
  · intro j hj1 hj2
    have hi := hin (j - k._count).toNat (by omega)
    have e : k._count + (((j - k._count).toNat : Nat) : Int) = j := by omega
    rw [e] at hi
    rw [hi]
    by_cases h : (j - k._count).toNat < (numCuts length mat k._max_tau - 1).toNat
    · rw [if_pos h]
      have hne : (j - k._count).toNat ≠ 0 := by omega
      simp [cutRecord, hne]
    · rw [if_neg h]
      have hne : (numCuts length mat k._max_tau - 1).toNat ≠ 0 := by omega
      show (if (numCuts length mat k._max_tau - 1).toNat = 0 then bwd else -1) = -1
      rw [if_neg hne]

/-- Witness of C14: a kernel at count 2 writing a segment of length 25 under
`max_tau = 10`. -/
theorem segmentation_store_order_witness :
    (SegmentationKernel.mk 2 10 (some blankArray)).storedBy 25 unitMaterial 0 4 5
        = (List.range (numCuts 25 unitMaterial 10).toNat).map
            (fun (j : Nat) => (2 : Int) + (j : Int))
      ∧ (SegmentationKernel.mk 2 10 (some blankArray)).storedBy 25 unitMaterial 0 4 5
        = [2, 3, 4] :=
  have h := (segmentation_store_order (SegmentationKernel.mk 2 10 (some blankArray))
    blankArray rfl 25 unitMaterial 0 4 5).1
  ⟨h, by
    rw [h, numCuts_25_10]
    decide⟩

/-- C16, as the code has it. `execute` makes no test of its arguments: under a positive
`max_tau`, a segment of non-positive length, or with a non-positive largest cross-section,
has one cut; a volume kernel, a counter kernel and a segmentation kernel with a bound
buffer add 1 to the count, and the segmentation kernel with a bound buffer writes the
segment as one record. -/
theorem degenerate_segment_one_cut (length : ℚ) (mat : Material) (max_tau : ℚ)
    (id fwd bwd : Int) (hτ : 0 < max_tau) (hdeg : length ≤ 0 ∨ maxSigmaT mat ≤ 0) :
    numCuts length mat max_tau = 1
      ∧ (∀ K : MOCKernel, K.max_tau = max_tau →
          (K.execute length mat id fwd bwd).getCount
            = if K.hasBuffer then K.getCount + 1 else K.getCount)
      ∧ (∀ (sk : SegmentationKernel) (buf : SegmentArray), sk._segments = some buf →
          sk._max_tau = max_tau →
            sk.written length mat id fwd bwd = [⟨length, mat, id, fwd, bwd⟩]) := by
  have hnum : numCuts length mat max_tau = 1 := by
    apply numCuts_eq_one_of_nonpos
    apply div_nonpos_of_nonpos_of_nonneg _ hτ.le
    rcases hdeg with hL | hσ
    · exact mul_nonpos_iff.mpr (Or.inr ⟨hL, maxSigmaT_nonneg mat⟩)
    · rw [le_antisymm hσ (maxSigmaT_nonneg mat), mul_zero]
  refine ⟨hnum, ?_, ?_⟩
  · intro K hK
    rw [MOCKernel.getCount_execute, hK, hnum]
  · intro sk buf hb hsk
    exact SegmentationKernel.written_of_one sk buf hb length mat id fwd bwd (by rw [hsk, hnum])

/-- Witness of C16: length -5 under `max_tau = 10` and cross-section 1. -/
theorem degenerate_segment_one_cut_witness :
    numCuts (-5) unitMaterial 10 = 1
      ∧ ((MOCKernel.counter ⟨0, 10⟩).execute (-5) unitMaterial 0 4 5).getCount = 1
      ∧ (SegmentationKernel.mk 0 10 (some blankArray)).written (-5) unitMaterial 0 4 5
          = [⟨-5, unitMaterial, 0, 4, 5⟩] :=
  have h := degenerate_segment_one_cut (-5) unitMaterial 10 0 4 5 (by decide)
    (Or.inl (by decide))
  ⟨h.1, h.2.1 (MOCKernel.counter ⟨0, 10⟩) rfl,
    h.2.2 (SegmentationKernel.mk 0 10 (some blankArray)) blankArray rfl rfl⟩

/-- C16 as stated fails: no call fails fast. A counter kernel at count 0 given a segment of
length -5 ends at count 1, and so does one given a material with no energy group. -/
theorem degenerate_segment_counted :
    ((CounterKernel.mk 0 10).execute (-5) unitMaterial 0 (-1) (-1)).getCount = 1
      ∧ ((CounterKernel.mk 0 10).execute 5 emptyMaterial 0 (-1) (-1)).getCount = 1 := by
  have h1 : numCuts (-5) unitMaterial 10 = 1 := by
    apply numCuts_eq_one_of_nonpos
    rw [maxSigmaT_unitMaterial]
    norm_num
  have h2 : numCuts 5 emptyMaterial 10 = 1 := by
    apply numCuts_eq_one_of_nonpos
    have : maxSigmaT emptyMaterial = 0 := rfl
    rw [this]
    norm_num
  constructor
  · show (0 : Int) + numCuts (-5) unitMaterial 10 = 1
    rw [h1]
    rfl
  · show (0 : Int) + numCuts 5 emptyMaterial 10 = 1
    rw [h2]
    rfl

/-- C17. On doubles a written record can be empty. A segmentation kernel with a bound buffer
and `max_tau = 0.1`, given the segment of length 3 whose material has the single
cross-section 0.1 (positive length, positive largest cross-section, positive `max_tau`),
writes four records, of lengths 1, 1, 1 and 0: the last one is not of positive length. -/
theorem segmentation_lengths_on_doubles :
    (0 : ℚ) < 3 ∧ 0 < tenth ∧ 0 < maxSigmaT ⟨[tenth]⟩
      ∧ ((SegmentationKernel.mk 0 tenth (some blankArray)).writtenOn doubleMachine 3
            ⟨[tenth]⟩ 0 4 5).map (fun r => r._length) = [1, 1, 1, 0]
      ∧ ∃ r ∈ (SegmentationKernel.mk 0 tenth (some blankArray)).writtenOn doubleMachine 3
            ⟨[tenth]⟩ 0 4 5, ¬ 0 < r._length := by
  refine ⟨by norm_num, by norm_num [tenth], by rw [maxSigmaT_tenth]; norm_num [tenth], ?_, ?_⟩
  · rw [writtenOn_double_three_tenth]
    rfl
  · rw [writtenOn_double_three_tenth]
    exact ⟨⟨0, ⟨[tenth]⟩, 0, 4, -1⟩, by simp, by norm_num⟩

/-- C18. For a material with no positive cross-section (no energy group, or every entry at
most 0) the loop leaves `max_sigma_t = 0` and, under a positive `max_tau` and for any
length, there is one cut: a counter kernel and a volume kernel add 1 to the count, and a
segmentation kernel with a bound buffer makes no pass of the loop of lines 227-239, the
only place of the division by `max_sigma_t`, stores to the one index `_count`, writes the
segment as it came and adds 1 to the count. -/
theorem no_positive_sigma_one_cut (mat : Material) (hmat : ∀ s ∈ mat.sigma_t, s ≤ 0)
    (length : ℚ) (id fwd bwd : Int) :
    maxSigmaT mat = 0
      ∧ (∀ max_tau : ℚ, 0 < max_tau → numCuts length mat max_tau = 1)
      ∧ (∀ ck : CounterKernel, 0 < ck._max_tau →
          (ck.execute length mat id fwd bwd).getCount = ck.getCount + 1)
      ∧ (∀ vk : VolumeKernel, 0 < vk._max_tau →
          (vk.execute length mat id fwd bwd).getCount = vk.getCount + 1)
      ∧ (∀ (sk : SegmentationKernel) (buf : SegmentArray), sk._segments = some buf →
          0 < sk._max_tau →
            (numCuts length mat sk._max_tau - 1).toNat = 0
              ∧ sk.storedBy length mat id fwd bwd = [sk._count]
              ∧ sk.written length mat id fwd bwd = [⟨length, mat, id, fwd, bwd⟩]
              ∧ (sk.execute length mat id fwd bwd).getCount = sk.getCount + 1) := by
  have h0 := maxSigmaT_eq_zero mat hmat
  have hnum : ∀ max_tau : ℚ, numCuts length mat max_tau = 1 := by
    intro max_tau
    apply numCuts_eq_one_of_nonpos
    rw [h0, mul_zero, zero_div]
  refine ⟨h0, fun t _ => hnum t, ?_, ?_, ?_⟩
  · intro ck _
    show ck._count + numCuts length mat ck._max_tau = ck._count + 1
    rw [hnum]
  · intro vk _
    show vk._count + numCuts length mat vk._max_tau = vk._count + 1
    rw [hnum]
  · intro sk buf hb _
    refine ⟨by rw [hnum]; rfl, ?_,
      SegmentationKernel.written_of_one sk buf hb length mat id fwd bwd (hnum _), ?_⟩
    · rw [SegmentationKernel.storedBy_eq sk buf hb, hnum]
      simp [List.range_succ]
    · unfold SegmentationKernel.getCount
      rw [SegmentationKernel.execute_some sk buf hb, hnum]

/-- Witness of C18: a two-group material with cross-sections 0 and -1. -/
theorem no_positive_sigma_one_cut_witness :
    maxSigmaT ⟨[0, -1]⟩ = 0
      ∧ ((CounterKernel.mk 3 10).execute 25 ⟨[0, -1]⟩ 0 4 5).getCount
          = (CounterKernel.mk 3 10).getCount + 1
      ∧ (SegmentationKernel.mk 3 10 (some blankArray)).written 25 ⟨[0, -1]⟩ 0 4 5
          = [⟨25, ⟨[0, -1]⟩, 0, 4, 5⟩] :=
  have h := no_positive_sigma_one_cut ⟨[0, -1]⟩ (by decide) 25 0 4 5
  ⟨h.1, h.2.2.1 (CounterKernel.mk 3 10) (by decide),
    (h.2.2.2.2 (SegmentationKernel.mk 3 10 (some blankArray)) blankArray rfl
      (by decide)).2.2.1⟩

/-- C19. On doubles with a 32-bit `int` the number of cuts is not monotone. For the material
with the single cross-section 1 and `max_tau = 1`, length 2000000000 gives 2000000000 cuts
and the larger length 3000000000 gives 1; for length 3, `max_tau = 1` gives 3 cuts and the
smaller limit `2 ^ (-30)` gives 1. In both cases the ceiling is beyond the range of `int`. -/
theorem numCuts_on_doubles_overflow :
    (2000000000 : ℚ) ≤ 3000000000
      ∧ numCutsOn doubleMachine 2000000000 unitMaterial 1 = 2000000000
      ∧ numCutsOn doubleMachine 3000000000 unitMaterial 1 = 1
      ∧ (0 : ℚ) < 1 / 1073741824 ∧ (1 / 1073741824 : ℚ) ≤ 1
      ∧ numCutsOn doubleMachine 3 unitMaterial 1 = 3
      ∧ numCutsOn doubleMachine 3 unitMaterial (1 / 1073741824) = 1 :=
  ⟨by norm_num, numCutsOn_double_2e9, numCutsOn_double_3e9, by norm_num, by norm_num,
    numCutsOn_double_three_one, numCutsOn_double_three_small⟩

end OpenMOC
